import Mathlib

/-!
A verification development for the `bulloak` repository (Rust/Noir test
scaffolding and conformance checking).  Rust sources are embedded shallowly:
strings are Lean `String`s processed character-wise (Rust `char` predicates are
modelled by the corresponding ASCII-level Lean `Char` predicates), fallible
functions return `Except`, and file-system access is an explicit map from paths
to optional contents.
-/

namespace Bulloak

/-! ### `crates/rust/src/utils.rs`: `to_snake_case` -/

/-- The nine exact keyword forms tried by the `strip_prefix` chain of
`to_snake_case` (utils.rs lines 8-18), in source order. -/
def kwForms : List (List Char) :=
  ["when ", "When ", "WHEN ", "given ", "Given ", "GIVEN ",
   "it ", "It ", "IT "].map String.data

/-- Models the `strip_prefix(..).or_else(..)...unwrap_or(s)` chain: removes the
first matching keyword form, or returns the input unchanged. -/
def stripBdd (s : List Char) : List Char :=
  match kwForms.findSome?
      (fun kw => if kw.isPrefixOf s then some (s.drop kw.length) else none) with
  | some rest => rest
  | none => s

/-- Models `str::trim` (whitespace removed from both ends). -/
def trimAsciiWs (s : List Char) : List Char :=
  ((s.dropWhile Char.isWhitespace).reverse.dropWhile Char.isWhitespace).reverse

/-- The character loop of `to_snake_case` (utils.rs lines 20-38): `prev` is
`prev_is_alphanumeric`, `acc` is `result`. -/
def snakeLoop : List Char → Bool → List Char → List Char
  | [], _, acc => acc
  | c :: cs, prev, acc =>
    if c.isAlphanum then
      let acc1 := if c.isUpper && prev && !acc.isEmpty then acc ++ ['_'] else acc
      snakeLoop cs true (acc1 ++ [c.toLower])
    else if c.isWhitespace || c == '-' then
      if prev then snakeLoop cs false (acc ++ ['_']) else snakeLoop cs false acc
    else
      snakeLoop cs false acc

/-- Models `result.trim_end_matches('_')`. -/
def trimEndUnderscores (l : List Char) : List Char :=
  (l.reverse.dropWhile (· == '_')).reverse

/-- `to_snake_case` from `crates/rust/src/utils.rs` (the private copy in
`hir/translator.rs` lines 192-231 is character-for-character identical, so one
definition embeds both). -/
def to_snake_case (s : String) : String :=
  ⟨trimEndUnderscores (snakeLoop (stripBdd (trimAsciiWs s.data)) false [])⟩

/-! ### `crates/noir/src/utils.rs`: `to_snake_case` (Noir variant) -/

/-- Recursion core of `stripAllKw`, structurally recursive on a fuel bound.
Each successful strip removes at least one character, so any fuel at least the
length of `s` gives the exact fixed point of prefix removal. -/
def stripAllKwFuel : Nat → List Char → List Char → List Char
  | 0, _, s => s
  | n + 1, kw, s =>
    if kw.isPrefixOf s && !kw.isEmpty then
      stripAllKwFuel n kw (s.drop kw.length)
    else
      s

/-- Models `str::trim_start_matches(kw)`: removes the prefix repeatedly while it
matches. -/
def stripAllKw (kw : List Char) (s : List Char) : List Char :=
  stripAllKwFuel s.length kw s

/-- Splits a character list at `'_'` (models `str::split('_')`). -/
def splitUnderscore : List Char → List (List Char)
  | [] => [[]]
  | c :: cs =>
    match splitUnderscore cs with
    | [] => [[]]
    | t :: ts => if c == '_' then [] :: t :: ts else (c :: t) :: ts

/-- Joins character chunks with `'_'` (models `Vec::join("_")`). -/
def joinSep : List (List Char) → List Char
  | [] => []
  | [t] => t
  | t :: ts => t ++ '_' :: joinSep ts

/-- `to_snake_case` from `crates/noir/src/utils.rs`: repeated prefix stripping
via six chained `trim_start_matches`, then a `filter_map` of characters, then
splitting on `'_'`, dropping empties and re-joining. -/
def noir_to_snake_case (title : String) : String :=
  let stripped :=
    stripAllKw "It ".data
      (stripAllKw "Given ".data
        (stripAllKw "When ".data
          (stripAllKw "it ".data
            (stripAllKw "given ".data
              (stripAllKw "when ".data (trimAsciiWs title.data))))))
  let mapped := stripped.filterMap (fun c =>
    if c.isAlphanum then some c.toLower
    else if c.isWhitespace then some '_'
    else none)
  ⟨joinSep ((splitUnderscore mapped).filter (fun t => !t.isEmpty))⟩

/-! ### The `bulloak-syntax` AST boundary (spec section 3, `SpecNode`)

The tree parser lives in the external `bulloak-syntax` crate; the translator
and checker consume its `Ast` values.  Spans are opaque source positions. -/

/-- An opaque source span carried by tree nodes. -/
structure Span where
  lo : Nat := 0
  hi : Nat := 0

/-- The specification tree consumed by the core:
`Root{children}`, `Condition{title, children, span}`,
`Action{title, children, span}`, `ActionDescription{text}`. -/
inductive Ast where
  | root (children : List Ast)
  | condition (title : String) (children : List Ast) (span : Span)
  | action (title : String) (children : List Ast) (span : Span)
  | actionDescription (text : String)

/-! ### `crates/rust/src/config.rs` and `crates/rust/src/constants.rs` -/

/-- `Config` from `crates/rust/src/config.rs`. -/
structure Config where
  files : List String := []
  skip_helpers : Bool := false
  format_descriptions : Bool := false

/-- `PANIC_KEYWORDS` from `crates/rust/src/constants.rs`. -/
def PANIC_KEYWORDS : List String :=
  ["panic", "panics", "revert", "reverts", "error", "errors", "fail", "fails"]

/-- `TEST_MODULE_NAME` from `crates/rust/src/constants.rs`. -/
def TEST_MODULE_NAME : String := "tests"

/-- `CONTEXT_STRUCT_NAME` from `crates/rust/src/constants.rs`. -/
def CONTEXT_STRUCT_NAME : String := "TestContext"

/-! ### `crates/rust/src/hir/hir.rs`: the Rust HIR

The Rust enum `Hir` wraps one struct per variant; here the `TestModule` and
`TestFunction` structs are flattened into constructor arguments because they
are mutually recursive with `Hir`. -/

/-- `Attribute` from hir.rs. -/
inductive Attribute where
  | test
  | shouldPanic
deriving DecidableEq

/-- `ContextStruct` from hir.rs, with its `Default` values. -/
structure ContextStruct where
  name : String := CONTEXT_STRUCT_NAME
  doc : Option String := some "Context for test conditions"

/-- `HelperFunction` from hir.rs. -/
structure HelperFunction where
  name : String
  doc : Option String
  span : Option Span

/-- `Comment` from hir.rs. -/
structure Comment where
  text : String
  format : Bool

/-- `Hir` from hir.rs.  `testModule` carries `TestModule{name, children}` and
`testFunction` carries `TestFunction{name, attributes, helpers, children,
span}`. -/
inductive Hir where
  | root (children : List Hir)
  | context (c : ContextStruct)
  | helper (h : HelperFunction)
  | testModule (name : String) (children : List Hir)
  | testFunction (name : String) (attributes : List Attribute)
      (helpers : List String) (children : List Hir) (span : Option Span)
  | comment (c : Comment)

/-! ### `crates/rust/src/hir/translator.rs` -/

/-- The `Translator` struct (format_descriptions, skip_helpers). -/
structure Translator where
  format_descriptions : Bool
  skip_helpers : Bool

/-- Models `str::to_lowercase` character-wise (`to_lowercase` maps each
character independently; ASCII-faithful). -/
def lowerStr (s : String) : String := ⟨s.data.map Char.toLower⟩

/-- Models `str::contains(needle)`: the needle occurs as a contiguous substring
of the haystack. -/
def containsSub (haystack needle : List Char) : Bool :=
  match haystack with
  | [] => needle.isEmpty
  | _ :: t => needle.isPrefixOf haystack || containsSub t needle

/-- `Translator::should_panic` (translator.rs lines 234-239): the lower-cased
title contains some panic keyword as a substring. -/
def should_panic (title : String) : Bool :=
  PANIC_KEYWORDS.any (fun kw => containsSub (lowerStr title).data kw.data)

/-- `Translator::action_to_test_name` (translator.rs lines 179-189). -/
def action_to_test_name (title : String) (helpers : List String) : String :=
  let action_part := to_snake_case title
  match helpers.getLast? with
  | none => "test_" ++ action_part
  | some last_helper => "test_" ++ last_helper ++ "_" ++ action_part

/-- `Translator::translate_action` (translator.rs lines 133-171): one
`TestFunction` per action, with a comment for the title and one per
`ActionDescription` child. -/
def translate_action (fmt : Bool) (title : String) (children : List Ast)
    (span : Span) (helpers : List String) : Hir :=
  let name := action_to_test_name title helpers
  let sp := should_panic title
  let attributes := [Attribute.test] ++ (if sp then [Attribute.shouldPanic] else [])
  let comments :=
    Hir.comment ⟨title, fmt⟩ ::
      children.filterMap (fun c =>
        match c with
        | Ast.actionDescription text => some (Hir.comment ⟨text, fmt⟩)
        | _ => none)
  Hir.testFunction name attributes helpers comments (some span)

/-- `Translator::collect_helpers_recursive` (translator.rs lines 71-92).  The
`HashSet` `seen` is modelled as a membership list. -/
def collect_helpers_rec :
    List Ast → List HelperFunction → List String → List HelperFunction × List String
  | [], helpers, seen => (helpers, seen)
  | Ast.condition title children span :: rest, helpers, seen =>
    let name := to_snake_case title
    let (helpers1, seen1) :=
      if seen.contains name then (helpers, seen)
      else (helpers ++ [⟨name, some title, some span⟩], name :: seen)
    let (helpers2, seen2) := collect_helpers_rec children helpers1 seen1
    collect_helpers_rec rest helpers2 seen2
  | _ :: rest, helpers, seen => collect_helpers_rec rest helpers seen

/-- `Translator::collect_helpers` (translator.rs lines 61-68). -/
def collect_helpers (children : List Ast) : List HelperFunction :=
  (collect_helpers_rec children [] []).1

/-- `Translator::process_children` (translator.rs lines 108-130): pre-order
test generation tracking the stack of enclosing condition slugs. -/
def process_children (fmt : Bool) : List Ast → List String → List Hir
  | [], _ => []
  | Ast.condition title children _ :: rest, parent_helpers =>
    let helper_name := to_snake_case title
    process_children fmt children (parent_helpers ++ [helper_name]) ++
      process_children fmt rest parent_helpers
  | Ast.action title children span :: rest, parent_helpers =>
    translate_action fmt title children span parent_helpers ::
      process_children fmt rest parent_helpers
  | _ :: rest, parent_helpers => process_children fmt rest parent_helpers

/-- The root assembly done by `Translator::translate` (translator.rs lines
33-58) once the argument is known to be a `Root`: context struct first, then
helpers (unless `skip_helpers`), then the single test module. -/
def translate_root (t : Translator) (children : List Ast) : Hir :=
  let helpers := if t.skip_helpers then [] else collect_helpers children
  Hir.root
    ([Hir.context {}] ++ helpers.map Hir.helper ++
      [Hir.testModule TEST_MODULE_NAME
        (process_children t.format_descriptions children [])])

/-- `Translator::translate` (translator.rs lines 33-58): fails unless the
argument is a `Root`. -/
def Translator.translate (t : Translator) (ast : Ast) : Except String Hir :=
  match ast with
  | Ast.root children => Except.ok (translate_root t children)
  | _ => Except.error "Expected Root node"

/-! ### `crates/rust/src/rust/parser.rs`: the syn-extracted view

`ParsedRustFile` wraps a full `syn::File`; the checker only consumes the
structural facts below, so the file is embedded as those facts: the functions
of the first `#[cfg(test)]` module (`none` when no such module exists) and the
top-level functions, each with its identifier and marker attributes, in file
order. -/

/-- A function item as seen through `syn`: identifier plus the two queried
attributes (`#[test]`, `#[should_panic]`). -/
structure RustFn where
  name : String
  hasTestAttr : Bool
  hasShouldPanicAttr : Bool

/-- The structural-facts view of a parsed Rust file. -/
structure ParsedRustFile where
  testModuleFns : Option (List RustFn)
  topFns : List RustFn

/-- `ParsedRustFile::find_test_functions`: `#[test]` functions inside the
first `#[cfg(test)]` module, in file order. -/
def find_test_functions (p : ParsedRustFile) : List RustFn :=
  (p.testModuleFns.getD []).filter (·.hasTestAttr)

/-- `ParsedRustFile::find_helper_functions`: top-level functions without a
`#[test]` attribute. -/
def find_helper_functions (p : ParsedRustFile) : List RustFn :=
  p.topFns.filter (fun f => !f.hasTestAttr)

/-! ### `crates/rust/src/check/violation.rs` -/

/-- `ViolationKind` from violation.rs. -/
inductive ViolationKind where
  | rustFileMissing
  | rustFileInvalid (err : String)
  | testModuleMissing
  | testFunctionMissing (name : String)
  | helperFunctionMissing (name : String)
  | testAttributeIncorrect (function expected found : String)
  | testOrderIncorrect
deriving DecidableEq

/-- `Violation` from violation.rs. -/
structure Violation where
  kind : ViolationKind
  file_path : String
  line : Option Nat
deriving DecidableEq

/-- `Violation::new`. -/
def Violation.new (kind : ViolationKind) (file_path : String) : Violation :=
  ⟨kind, file_path, none⟩

/-! ### `crates/rust/src/check/rules/structural_match.rs` -/

/-- `TestInfo` from structural_match.rs. -/
structure TestInfo where
  name : String
  should_panic : Bool
deriving DecidableEq

/-- `ExpectedTests` from structural_match.rs.  The Rust `helpers` field is a
`HashSet<String>`; it is embedded as its first-insertion-ordered list of
distinct elements (membership-faithful; the set's iteration order is
unspecified in the source). -/
structure ExpectedTests where
  helpers : List String
  test_functions : List TestInfo

/-- `collect_helpers_recursive` from structural_match.rs (lines 143-155):
inserts every condition slug into the set and recurses. -/
def chk_collect_helpers : List Ast → List String → List String
  | [], acc => acc
  | Ast.condition title children _ :: rest, acc =>
    let name := to_snake_case title
    let acc1 := if acc.contains name then acc else acc ++ [name]
    chk_collect_helpers rest (chk_collect_helpers children acc1)
  | _ :: rest, acc => chk_collect_helpers rest acc

/-- Models `str::split_whitespace`: maximal runs of non-whitespace characters,
with `cur` the word currently being accumulated. -/
def splitWsAux : List Char → List Char → List (List Char)
  | [], cur => if cur.isEmpty then [] else [cur]
  | c :: cs, cur =>
    if c.isWhitespace then
      if cur.isEmpty then splitWsAux cs [] else cur :: splitWsAux cs []
    else
      splitWsAux cs (cur ++ [c])

/-- The whole-word panic test used by the checker (structural_match.rs lines
187-191 and 208-210): some whitespace-separated word of the lower-cased title
is exactly one of the panic keywords. -/
def panicWordMatch (title : String) : Bool :=
  (splitWsAux (lowerStr title).data []).any
    (fun w => PANIC_KEYWORDS.any (fun kw => w == kw.data))

/-- `collect_tests_recursive` from structural_match.rs (lines 158-221): one
aggregate `TestInfo` per condition that has direct action children, named
`test_when_<conditionSlug>`; one `TestInfo` per root-level action, named
`test_<actionSlug>`. -/
def chk_collect_tests : List Ast → List String → List TestInfo
  | [], _ => []
  | Ast.condition title children _ :: rest, parent_helpers =>
    let helper_name := to_snake_case title
    let new_helpers := parent_helpers ++ [helper_name]
    let actions := children.filterMap (fun c =>
      match c with
      | Ast.action t _ _ => some t
      | _ => none)
    let here : List TestInfo :=
      match actions with
      | [] => []
      | firstTitle :: _ =>
        let test_name :=
          if new_helpers.isEmpty then "test_" ++ to_snake_case firstTitle
          else "test_when_" ++ (new_helpers.getLast?.getD "")
        [⟨test_name, actions.any panicWordMatch⟩]
    here ++ (chk_collect_tests children new_helpers ++ chk_collect_tests rest parent_helpers)
  | Ast.action title _ _ :: rest, parent_helpers =>
    (if parent_helpers.isEmpty then
      [⟨"test_" ++ to_snake_case title, panicWordMatch title⟩]
    else []) ++ chk_collect_tests rest parent_helpers
  | _ :: rest, parent_helpers => chk_collect_tests rest parent_helpers

/-- `extract_expected_structure` from structural_match.rs (lines 117-140), on
the children of a `Root`. -/
def extract_expected_structure (children : List Ast) (cfg : Config) : ExpectedTests :=
  { helpers := if cfg.skip_helpers then [] else chk_collect_helpers children []
    test_functions := chk_collect_tests children [] }

/-- `check_structural_match` from structural_match.rs (lines 30-114), with the
`syn` parse of the Rust source supplied as an `Except` value.  Terminal cases
first: parse failure, then missing test module; then missing helpers, then
missing tests and attribute mismatches, in source push order. -/
def check_structural_match (ast : Ast) (parsed : Except String ParsedRustFile)
    (file_path : String) (cfg : Config) : Except String (List Violation) :=
  match parsed with
  | Except.error e =>
    Except.ok [Violation.new (ViolationKind.rustFileInvalid e) file_path]
  | Except.ok p =>
    match p.testModuleFns with
    | none => Except.ok [Violation.new ViolationKind.testModuleMissing file_path]
    | some _ =>
      match ast with
      | Ast.root children =>
        let expected := extract_expected_structure children cfg
        let found_helpers := (find_helper_functions p).map (·.name)
        let helperViolations :=
          if cfg.skip_helpers then []
          else
            (expected.helpers.filter (fun h => !found_helpers.contains h)).map
              (fun h => Violation.new (ViolationKind.helperFunctionMissing h) file_path)
        let found_tests := find_test_functions p
        let found_test_names := found_tests.map (·.name)
        let testViolations := expected.test_functions.flatMap (fun t =>
          if !found_test_names.contains t.name then
            [Violation.new (ViolationKind.testFunctionMissing t.name) file_path]
          else
            match found_tests.find? (fun f => f.name == t.name) with
            | some f =>
              if t.should_panic && !f.hasShouldPanicAttr then
                [Violation.new
                  (ViolationKind.testAttributeIncorrect t.name "#[should_panic]" "none")
                  file_path]
              else []
            | none => [])
        Except.ok (helperViolations ++ testViolations)
      | _ => Except.error "Expected Root node"

/-! ### `crates/rust/src/check/mod.rs`: the per-tree `check` entry point

File-system reads are embedded as a map from path to optional content; the
external `bulloak_syntax::parse_one` tree parser and the `syn` Rust parser are
supplied as function parameters (they are boundary collaborators). -/

/-- The last index of `c` in `l`, if any. -/
def lastIndexOf (c : Char) (l : List Char) : Option Nat :=
  match l with
  | [] => none
  | x :: xs =>
    match lastIndexOf c xs with
    | some i => some (i + 1)
    | none => if x == c then some 0 else none

/-- Models `Path::file_stem` on a file name: the whole name when it has no dot
or only a leading dot, otherwise the portion before the last dot. -/
def file_stem (name : List Char) : List Char :=
  match lastIndexOf '.' name with
  | none => name
  | some 0 => name
  | some i => name.take i

/-- The companion path computed by `check` (check/mod.rs line 29):
`tree_path.with_file_name(format!("{}_test.rs", file_stem))`, for Unix-style
path strings. -/
def rust_path_of (tree_path : String) : String :=
  let cs := tree_path.data
  match lastIndexOf '/' cs with
  | none => ⟨file_stem cs ++ "_test.rs".data⟩
  | some i => ⟨cs.take (i + 1) ++ file_stem (cs.drop (i + 1)) ++ "_test.rs".data⟩

/-- `check` from `crates/rust/src/check/mod.rs` (lines 17-45): read the tree
file, parse it, derive the companion `_test.rs` path, report `RustFileMissing`
when that file does not exist, otherwise read it and run the structural-match
rule. -/
def check (fs : String → Option String) (parse_one : String → Except String Ast)
    (syn_parse : String → Except String ParsedRustFile)
    (tree_path : String) (cfg : Config) : Except String (List Violation) :=
  match fs tree_path with
  | none => Except.error ("Failed to read tree file: " ++ tree_path)
  | some tree_source =>
    match parse_one tree_source with
    | Except.error e => Except.error e
    | Except.ok ast =>
      let rust_path := rust_path_of tree_path
      match fs rust_path with
      | none =>
        Except.ok [Violation.new ViolationKind.rustFileMissing rust_path]
      | some rust_source =>
        check_structural_match ast (syn_parse rust_source) rust_path cfg

/-! ### `crates/bulloak/src/check.rs`: batch collection and exit behaviour -/

/-- `Check::collect_violations` (check.rs lines 231-257): successful per-file
results contribute their violations; per-file errors are printed and
discarded. -/
def collect_violations : List (Except String (List Violation)) → List Violation
  | [] => []
  | Except.ok violations :: rest => violations ++ collect_violations rest
  | Except.error _ :: rest => collect_violations rest

/-- The process exit code produced by `Check::report_violations` (check.rs
lines 259-276): 0 with a success message when the collected list is empty,
otherwise `std::process::exit(1)`. -/
def report_exit_code (violations : List Violation) : Nat :=
  if violations.isEmpty then 0 else 1

/-- The exit code of `Check::run_rust_check` (check.rs lines 199-213) as a
function of the per-file check outcomes. -/
def run_check_exit_code (fs : String → Option String)
    (parse_one : String → Except String Ast)
    (syn_parse : String → Except String ParsedRustFile)
    (tree_paths : List String) (cfg : Config) : Nat :=
  report_exit_code
    (collect_violations (tree_paths.map (fun p => check fs parse_one syn_parse p cfg)))

/-! ### The scaffold output as seen by the checker

`scaffold` (crates/rust/src/scaffold/mod.rs lines 17-27) translates the AST to
HIR and emits source text from it.  The emitter module itself
(`scaffold/emitter.rs`, declared in `scaffold/mod.rs`) is not present in the
source tree, so its composition with the syn fact extraction is modelled from
the spec. -/

/-- Modelled from the spec: `scaffold/emitter.rs` is missing from the source
tree, so the emitted text is not available; per spec sections 4.3-4.4 the
emitter writes the context struct, then one top-level function per
`HelperFunction` (no `#[test]`), then a single `#[cfg(test)]` module holding
one `#[test]` function per `TestFunction`, with `#[should_panic]` exactly when
that attribute is in the HIR.  This function is that emitted file as the `syn`
extraction of `rust/parser.rs` sees it. -/
def facts_of_hir : Hir → ParsedRustFile
  | Hir.root children =>
    { testModuleFns :=
        match children.findSome? (fun c =>
            match c with
            | Hir.testModule _ ms => some ms
            | _ => none) with
        | none => none
        | some ms =>
          some (ms.filterMap (fun m =>
            match m with
            | Hir.testFunction nm attrs _ _ _ =>
              some ⟨nm, attrs.contains Attribute.test, attrs.contains Attribute.shouldPanic⟩
            | _ => none))
      topFns := children.filterMap (fun c =>
        match c with
        | Hir.helper h => some ⟨h.name, false, false⟩
        | _ => none) }
  | _ => ⟨none, []⟩

/-! ### Statement accessors -/

/-- The attribute list of a `testFunction` node. -/
def hirAttributes : Hir → List Attribute
  | Hir.testFunction _ attrs _ _ _ => attrs
  | _ => []

/-- The name of a `testFunction` node. -/
def hirTestFnName : Hir → String
  | Hir.testFunction n _ _ _ _ => n
  | _ => ""

/-- The children of the test module of a translated root. -/
def hir_test_module_children : Hir → List Hir
  | Hir.root children =>
    (children.findSome? (fun c =>
      match c with
      | Hir.testModule _ ms => some ms
      | _ => none)).getD []
  | _ => []

/-- The helper names of a translated root, in order. -/
def hir_helper_names : Hir → List String
  | Hir.root children =>
    children.filterMap (fun c =>
      match c with
      | Hir.helper h => some h.name
      | _ => none)
  | _ => []

/-- The greedy order-preserving-subsequence check described by the spec
(section 4.5, step 4): advance an expected pointer whenever the current actual
identifier matches, skipping non-matching actual identifiers. -/
def isOrderedSubseq : List String → List String → Bool
  | [], _ => true
  | _ :: _, [] => false
  | e :: es, a :: rest =>
    if e == a then isOrderedSubseq es rest else isOrderedSubseq (e :: es) rest

/-! ### Supporting lemmas -/

instance {ε α : Type} [DecidableEq ε] [DecidableEq α] : DecidableEq (Except ε α) :=
  fun x y =>
    match x, y with
    | Except.ok a, Except.ok b =>
      if h : a = b then isTrue (by rw [h])
      else isFalse (by intro hc; injection hc; contradiction)
    | Except.error a, Except.error b =>
      if h : a = b then isTrue (by rw [h])
      else isFalse (by intro hc; injection hc; contradiction)
    | Except.ok _, Except.error _ => isFalse (by intro hc; cases hc)
    | Except.error _, Except.ok _ => isFalse (by intro hc; cases hc)

theorem containsSub_iff (h n : List Char) : containsSub h n = true ↔ n <:+: h := by
  induction h with
  | nil => simp [containsSub, List.isEmpty_iff]
  | cons c t ih =>
    simp only [containsSub, Bool.or_eq_true, List.isPrefixOf_iff_prefix, ih,
      List.infix_cons_iff]

theorem should_panic_iff (title : String) :
    should_panic title = true ↔
      ∃ kw ∈ PANIC_KEYWORDS, kw.data <:+: (lowerStr title).data := by
  simp only [should_panic, List.any_eq_true, containsSub_iff]

/-! ### C5 -/

/-- C5: the generation path marks a test unit `#[should_panic]` exactly when
the case-folded action title contains one of the eight panic keywords as a
substring (not whole-word), so a title containing "failure" is flagged. -/
theorem c5_expect_failure_substring :
    (∀ (fmt : Bool) (title : String) (children : List Ast) (span : Span)
        (helpers : List String),
        Attribute.shouldPanic ∈
            hirAttributes (translate_action fmt title children span helpers) ↔
          ∃ kw ∈ PANIC_KEYWORDS, kw.data <:+: (lowerStr title).data) ∧
      should_panic "It tolerates failure" = true := by
  constructor
  · intro fmt title children span helpers
    rw [← should_panic_iff]
    simp only [translate_action, hirAttributes]
    cases h : should_panic title <;> simp [h]
  · decide

/-! ### C8 -/

/-- C8: an unparseable source file yields exactly one `RustFileInvalid`
violation and checking stops; a parseable file without a `#[cfg(test)]`
module yields exactly one `TestModuleMissing` violation and checking stops. -/
theorem c8_terminal_parse_and_module :
    (∀ (ast : Ast) (path : String) (cfg : Config) (e : String),
        check_structural_match ast (Except.error e) path cfg =
          Except.ok [Violation.new (ViolationKind.rustFileInvalid e) path]) ∧
      ∀ (ast : Ast) (p : ParsedRustFile) (path : String) (cfg : Config),
        p.testModuleFns = none →
        check_structural_match ast (Except.ok p) path cfg =
          Except.ok [Violation.new ViolationKind.testModuleMissing path] := by
  constructor
  · intro ast path cfg e
    rfl
  · intro ast p path cfg h
    simp only [check_structural_match, h]

/-- Witness for the hypothesis of `c8_terminal_parse_and_module`. -/
theorem c8_witness :
    check_structural_match (Ast.root []) (Except.ok ⟨none, []⟩) "f" {} =
      Except.ok [Violation.new ViolationKind.testModuleMissing "f"] :=
  c8_terminal_parse_and_module.2 (Ast.root []) ⟨none, []⟩ "f" {} rfl

/-! ### C10 -/

/-- C10: when the companion `<stem>_test.rs` file does not exist, `check`
returns successfully with exactly one `RustFileMissing` violation; the result
does not depend on the Rust-source parser, which is never consulted. -/
theorem c10_missing_companion :
    ∀ (fs : String → Option String) (parse_one : String → Except String Ast)
      (syn_parse : String → Except String ParsedRustFile)
      (tree_path : String) (cfg : Config) (src : String) (ast : Ast),
      fs tree_path = some src →
      parse_one src = Except.ok ast →
      fs (rust_path_of tree_path) = none →
      check fs parse_one syn_parse tree_path cfg =
        Except.ok [Violation.new ViolationKind.rustFileMissing (rust_path_of tree_path)] := by
  intro fs parse_one syn_parse tree_path cfg src ast h1 h2 h3
  simp only [check, h1, h2, h3]

/-- Witness for the hypotheses of `c10_missing_companion`. -/
theorem c10_witness :
    check (fun p => if p = "foo.tree" then some "t" else none)
        (fun _ => Except.ok (Ast.root [])) (fun _ => Except.error "unused")
        "foo.tree" {} =
      Except.ok [Violation.new ViolationKind.rustFileMissing "foo_test.rs"] := by
  have h := c10_missing_companion
    (fun p => if p = "foo.tree" then some "t" else none)
    (fun _ => Except.ok (Ast.root [])) (fun _ => Except.error "unused")
    "foo.tree" {} "t" (Ast.root []) (by decide) rfl (by decide)
  have hp : rust_path_of "foo.tree" = "foo_test.rs" := by decide
  rw [hp] at h
  exact h

/-! ### C3 -/

/-- C3 counterexample: with expected tests `[test_a, test_b]` and actual file
order `[test_b, test_a]` (container present, both parseable), the expected
sequence is not an order-preserving subsequence of the actual one, yet the
check returns no violation at all — in particular no `TestOrderIncorrect`. -/
theorem c3_counterexample :
    isOrderedSubseq
        ((extract_expected_structure
            [Ast.action "It a" [] {}, Ast.action "It b" [] {}] {}).test_functions.map
          TestInfo.name)
        ((find_test_functions
            ⟨some [⟨"test_b", true, false⟩, ⟨"test_a", true, false⟩], []⟩).map
          RustFn.name) = false ∧
      check_structural_match (Ast.root [Ast.action "It a" [] {}, Ast.action "It b" [] {}])
          (Except.ok ⟨some [⟨"test_b", true, false⟩, ⟨"test_a", true, false⟩], []⟩)
          "f" {} =
        Except.ok [] := by
  constructor
  · simp only [extract_expected_structure, chk_collect_tests]
    decide
  · simp only [check_structural_match, extract_expected_structure, chk_collect_tests,
      chk_collect_helpers]
    decide

/-- C3 amended: the checker performs no order check at all — the
`TestOrderIncorrect` violation kind is declared but never produced, whether or
not the expected identifier sequence is a subsequence of the actual one. -/
theorem c3_amended :
    ∀ (ast : Ast) (parsed : Except String ParsedRustFile) (path : String)
      (cfg : Config) (vs : List Violation) (v : Violation),
      check_structural_match ast parsed path cfg = Except.ok vs →
      v ∈ vs → v.kind ≠ ViolationKind.testOrderIncorrect := by
  intro ast parsed path cfg vs v hok hmem
  cases parsed with
  | error e =>
    simp only [check_structural_match, Except.ok.injEq] at hok
    subst hok
    simp only [List.mem_singleton] at hmem
    subst hmem
    simp [Violation.new]
  | ok p =>
    simp only [check_structural_match] at hok
    split at hok
    · simp only [Except.ok.injEq] at hok
      subst hok
      simp only [List.mem_singleton] at hmem
      subst hmem
      simp [Violation.new]
    · split at hok
      · simp only [Except.ok.injEq] at hok
        subst hok
        rcases List.mem_append.mp hmem with h | h
        · rcases hsk : Config.skip_helpers cfg with _ | _ <;> simp only [hsk] at h
          · obtain ⟨x, hx, rfl⟩ := List.mem_map.mp h
            simp [Violation.new]
          · simp at h
        · obtain ⟨t, ht, hv⟩ := List.mem_flatMap.mp h
          split at hv
          · simp only [List.mem_singleton] at hv
            subst hv
            simp [Violation.new]
          · split at hv
            · split at hv
              · simp only [List.mem_singleton] at hv
                subst hv
                simp [Violation.new]
              · simp at hv
            · simp at hv
      · cases hok

/-- Witness for the hypotheses of `c3_amended`. -/
theorem c3_witness :
    (Violation.new ViolationKind.testModuleMissing "f").kind ≠
      ViolationKind.testOrderIncorrect :=
  c3_amended (Ast.root []) (Except.ok ⟨none, []⟩) "f" {}
    [Violation.new ViolationKind.testModuleMissing "f"]
    (Violation.new ViolationKind.testModuleMissing "f") rfl (by simp)

/-! ### C9 -/

/-- C9 counterexample: a batch whose only file fails specification parsing
exits with code 0 (the parse failure is logged but not counted), contradicting
the claim that any parse failure forces a non-zero exit. -/
theorem c9_counterexample :
    run_check_exit_code (fun _ => some "spec") (fun _ => Except.error "parse failure")
        (fun _ => Except.error "unused") ["a.tree"] {} = 0 := by
  rfl

/-- C9 amended: the batch exits 0 exactly when every per-file check that
succeeds reports an empty violation list; read/parse failures of a
specification file make the per-file result an error, which is discarded from
the collected violations and therefore never affects the exit code. -/
theorem c9_amended :
    ∀ (fs : String → Option String) (parse_one : String → Except String Ast)
      (syn_parse : String → Except String ParsedRustFile)
      (tree_paths : List String) (cfg : Config),
      run_check_exit_code fs parse_one syn_parse tree_paths cfg = 0 ↔
        ∀ p ∈ tree_paths, ∀ vs,
          check fs parse_one syn_parse p cfg = Except.ok vs → vs = [] := by
  intro fs parse_one syn_parse tree_paths cfg
  unfold run_check_exit_code report_exit_code
  rw [show ((if (collect_violations
        (tree_paths.map (fun p => check fs parse_one syn_parse p cfg))).isEmpty then 0
      else 1) = 0 ↔
      (collect_violations
        (tree_paths.map (fun p => check fs parse_one syn_parse p cfg))).isEmpty = true)
    from by split <;> simp_all]
  rw [List.isEmpty_iff]
  induction tree_paths with
  | nil => simp [collect_violations]
  | cons p ps ih =>
    simp only [List.map_cons]
    cases hc : check fs parse_one syn_parse p cfg with
    | ok vs =>
      simp only [collect_violations, List.append_eq_nil, ih]
      constructor
      · rintro ⟨h1, h2⟩
        intro q hq ws hw
        rcases List.mem_cons.mp hq with rfl | hq'
        · rw [hc] at hw; cases hw; exact h1
        · exact h2 q hq' ws hw
      · intro h
        refine ⟨h p (by simp) vs hc, ?_⟩
        intro q hq ws hw
        exact h q (by simp [hq]) ws hw
    | error e =>
      simp only [collect_violations, ih]
      constructor
      · intro h q hq ws hw
        rcases List.mem_cons.mp hq with rfl | hq'
        · rw [hc] at hw; cases hw
        · exact h q hq' ws hw
      · intro h q hq ws hw
        exact h q (by simp [hq]) ws hw

/-! ### C7 -/

/-- C7: with the container present, an `AttributeMismatch` violation for name
`n` is emitted iff some expected test named `n` has its expect-failure flag
set, `n` is present among the actual test functions, and the first actual test
function named `n` lacks the `#[should_panic]` marker.  In particular an
actual unit carrying an unexpected failure marker is never flagged. -/
theorem c7_attribute_mismatch_iff :
    ∀ (children : List Ast) (p : ParsedRustFile) (path : String) (cfg : Config)
      (vs : List Violation) (n : String),
      check_structural_match (Ast.root children) (Except.ok p) path cfg = Except.ok vs →
      p.testModuleFns ≠ none →
      ((∃ exp fnd,
          Violation.new (ViolationKind.testAttributeIncorrect n exp fnd) path ∈ vs) ↔
        ∃ t ∈ (extract_expected_structure children cfg).test_functions,
          t.name = n ∧ t.should_panic = true ∧
          ((find_test_functions p).map RustFn.name).contains n = true ∧
          ∃ f, (find_test_functions p).find? (fun f => f.name == n) = some f ∧
            f.hasShouldPanicAttr = false) := by
  intro children p path cfg vs n hok hmod
  obtain ⟨ms, hms⟩ : ∃ ms, p.testModuleFns = some ms :=
    Option.ne_none_iff_exists'.mp hmod
  simp only [check_structural_match, hms, Except.ok.injEq] at hok
  subst hok
  constructor
  · rintro ⟨exp, fnd, hv⟩
    rcases List.mem_append.mp hv with h | h
    · exfalso
      rcases hsk : Config.skip_helpers cfg with _ | _ <;> simp only [hsk] at h
      · obtain ⟨x, hx, hx2⟩ := List.mem_map.mp h
        simp [Violation.new] at hx2
      · simp at h
    · obtain ⟨t, ht, hv2⟩ := List.mem_flatMap.mp h
      refine ⟨t, ht, ?_⟩
      split at hv2
      · simp only [List.mem_singleton] at hv2
        simp [Violation.new] at hv2
      · rename_i hcont
        simp only [Bool.not_eq_true', Bool.not_eq_false] at hcont
        split at hv2
        · rename_i f hfind
          split at hv2
          · rename_i hcond
            simp only [List.mem_singleton] at hv2
            have hinj : t.name = n ∧ "#[should_panic]" = exp ∧ "none" = fnd := by
              have hv3 := hv2
              simp only [Violation.new, Violation.mk.injEq,
                ViolationKind.testAttributeIncorrect.injEq] at hv3
              tauto
            obtain ⟨hn, _, _⟩ := hinj
            subst hn
            simp only [Bool.and_eq_true, Bool.not_eq_true'] at hcond
            exact ⟨rfl, hcond.1, hcont, f, hfind, hcond.2⟩
          · simp at hv2
        · simp at hv2
  · rintro ⟨t, ht, hn, hpanic, hcont, f, hfind, hsp⟩
    subst hn
    refine ⟨"#[should_panic]", "none", List.mem_append.mpr (Or.inr ?_)⟩
    refine List.mem_flatMap.mpr ⟨t, ht, ?_⟩
    rw [if_neg (by rw [hcont]; decide), hfind]
    simp [hpanic, hsp]

/-- Witness for the hypotheses of `c7_attribute_mismatch_iff`. -/
theorem c7_witness :
    (∃ exp fnd,
        Violation.new (ViolationKind.testAttributeIncorrect "test_reverts" exp fnd) "f" ∈
          [Violation.new
            (ViolationKind.testAttributeIncorrect "test_reverts" "#[should_panic]" "none")
            "f"]) ↔
      ∃ t ∈ (extract_expected_structure [Ast.action "It reverts" [] {}] {}).test_functions,
        t.name = "test_reverts" ∧ t.should_panic = true ∧
        ((find_test_functions ⟨some [⟨"test_reverts", true, false⟩], []⟩).map
            RustFn.name).contains "test_reverts" = true ∧
        ∃ f, (find_test_functions ⟨some [⟨"test_reverts", true, false⟩], []⟩).find?
            (fun f => f.name == "test_reverts") = some f ∧
          f.hasShouldPanicAttr = false :=
  c7_attribute_mismatch_iff [Ast.action "It reverts" [] {}]
    ⟨some [⟨"test_reverts", true, false⟩], []⟩ "f" {}
    [Violation.new
      (ViolationKind.testAttributeIncorrect "test_reverts" "#[should_panic]" "none") "f"]
    "test_reverts"
    (by
      simp only [check_structural_match, extract_expected_structure, chk_collect_tests,
        chk_collect_helpers]
      decide)
    (by simp)

/-! ### C6 -/

/-- The pre-order sequence of condition slugs of a tree (with repetitions). -/
def preorder_condition_slugs : List Ast → List String
  | [] => []
  | Ast.condition title children _ :: rest =>
    to_snake_case title :: (preorder_condition_slugs children ++ preorder_condition_slugs rest)
  | _ :: rest => preorder_condition_slugs rest

/-- First-occurrence deduplication with an accumulator of already-seen
elements. -/
def dedupFirstAux : List String → List String → List String
  | [], _ => []
  | a :: l, seen =>
    if a ∈ seen then dedupFirstAux l seen else a :: dedupFirstAux l (a :: seen)

theorem contains_true_iff (l : List String) (a : String) : l.contains a = true ↔ a ∈ l :=
  List.elem_iff

theorem contains_false_iff (l : List String) (a : String) : l.contains a = false ↔ a ∉ l := by
  constructor
  · intro h hm
    rw [← contains_true_iff] at hm
    rw [h] at hm
    cases hm
  · intro h
    cases hv : l.contains a with
    | true => exact absurd ((contains_true_iff l a).mp hv) h
    | false => rfl

theorem dedupFirstAux_congr :
    ∀ (l s₁ s₂ : List String), (∀ x, x ∈ s₁ ↔ x ∈ s₂) →
      dedupFirstAux l s₁ = dedupFirstAux l s₂ := by
  intro l
  induction l with
  | nil => intro s₁ s₂ h; rfl
  | cons a l ih =>
    intro s₁ s₂ h
    simp only [dedupFirstAux]
    by_cases hm : a ∈ s₂
    · rw [if_pos ((h a).mpr hm), if_pos hm]
      exact ih s₁ s₂ h
    · rw [if_neg (fun hx => hm ((h a).mp hx)), if_neg hm]
      rw [ih (a :: s₁) (a :: s₂) (by intro x; simp [h x])]

theorem dedupFirstAux_append :
    ∀ (l₁ l₂ seen seen₂ : List String),
      (∀ x, x ∈ seen₂ ↔ x ∈ seen ∨ x ∈ l₁) →
      dedupFirstAux (l₁ ++ l₂) seen = dedupFirstAux l₁ seen ++ dedupFirstAux l₂ seen₂ := by
  intro l₁
  induction l₁ with
  | nil =>
    intro l₂ seen seen₂ h
    simp only [List.nil_append, dedupFirstAux]
    exact (dedupFirstAux_congr l₂ seen₂ seen (by intro x; simp [h x])).symm
  | cons a l₁ ih =>
    intro l₂ seen seen₂ h
    simp only [List.cons_append, dedupFirstAux]
    by_cases hm : a ∈ seen
    · rw [if_pos hm, if_pos hm]
      refine ih l₂ seen seen₂ ?_
      intro x
      rw [h x]
      simp only [List.mem_cons]
      constructor
      · rintro (hx | rfl | hx)
        · exact Or.inl hx
        · exact Or.inl hm
        · exact Or.inr hx
      · rintro (hx | hx)
        · exact Or.inl hx
        · exact Or.inr (Or.inr hx)
    · rw [if_neg hm, if_neg hm]
      simp only [List.append_eq]
      rw [ih l₂ (a :: seen) seen₂ (by intro x; rw [h x]; simp only [List.mem_cons]; tauto)]
      simp

theorem dedupFirstAux_mem :
    ∀ (l seen : List String) (x : String),
      x ∈ dedupFirstAux l seen ↔ x ∈ l ∧ x ∉ seen := by
  intro l
  induction l with
  | nil => intro seen x; simp [dedupFirstAux]
  | cons a l ih =>
    intro seen x
    simp only [dedupFirstAux]
    by_cases hm : a ∈ seen
    · rw [if_pos hm]
      rw [ih]
      simp only [List.mem_cons]
      constructor
      · rintro ⟨hx, hns⟩; exact ⟨Or.inr hx, hns⟩
      · rintro ⟨rfl | hx, hns⟩
        · exact absurd hm hns
        · exact ⟨hx, hns⟩
    · rw [if_neg hm]
      simp only [List.mem_cons, ih, List.mem_cons]
      constructor
      · rintro (rfl | ⟨hx, hns⟩)
        · exact ⟨Or.inl rfl, hm⟩
        · exact ⟨Or.inr hx, fun hs => hns (Or.inr hs)⟩
      · rintro ⟨rfl | hx, hns⟩
        · exact Or.inl rfl
        · by_cases hxa : x = a
          · exact Or.inl hxa
          · exact Or.inr ⟨hx, fun hs => by
              rcases hs with h1 | h1
              · exact hxa h1
              · exact hns h1⟩

theorem dedupFirstAux_nodup :
    ∀ (l seen : List String), (dedupFirstAux l seen).Nodup := by
  intro l
  induction l with
  | nil => intro seen; simp [dedupFirstAux]
  | cons a l ih =>
    intro seen
    simp only [dedupFirstAux]
    by_cases hm : a ∈ seen
    · rw [if_pos hm]; exact ih seen
    · rw [if_neg hm]
      refine List.nodup_cons.mpr ⟨?_, ih (a :: seen)⟩
      intro hmem
      exact ((dedupFirstAux_mem l (a :: seen) a).mp hmem).2 (List.mem_cons.mpr (Or.inl rfl))

theorem collect_helpers_rec_spec :
    ∀ (cs : List Ast) (helpers : List HelperFunction) (seen : List String),
      ((collect_helpers_rec cs helpers seen).1.map HelperFunction.name =
        helpers.map HelperFunction.name ++
          dedupFirstAux (preorder_condition_slugs cs) seen) ∧
      ∀ x, x ∈ (collect_helpers_rec cs helpers seen).2 ↔
        x ∈ seen ∨ x ∈ preorder_condition_slugs cs := by
  intro cs helpers seen
  induction cs, helpers, seen using collect_helpers_rec.induct with
  | case1 helpers seen =>
    simp [collect_helpers_rec, preorder_condition_slugs, dedupFirstAux]
  | case2 title children span rest helpers seen name helpers2 seen2 heq helpers21 seen21 heq2 ih1 ih2 =>
    have heq3 : (if seen.contains (to_snake_case title) = true then (helpers, seen)
        else (helpers ++ [⟨to_snake_case title, some title, some span⟩],
          to_snake_case title :: seen)) = (helpers2, seen2) := heq
    have hstep : collect_helpers_rec (Ast.condition title children span :: rest) helpers seen
        = collect_helpers_rec rest helpers21 seen21 := by
      conv_lhs => rw [collect_helpers_rec]
      rw [heq3]
      dsimp only
      rw [heq2]
    have hm21 : (collect_helpers_rec children helpers2 seen2).1 = helpers21 := by
      rw [heq2]
    have hs21 : (collect_helpers_rec children helpers2 seen2).2 = seen21 := by
      rw [heq2]
    have hseen21 : ∀ x, x ∈ seen21 ↔ x ∈ seen2 ∨ x ∈ preorder_condition_slugs children := by
      intro x
      rw [← hs21]
      exact ih1.2 x
    have hmap21 : helpers21.map HelperFunction.name =
        helpers2.map HelperFunction.name ++ dedupFirstAux (preorder_condition_slugs children) seen2 := by
      rw [← hm21]
      exact ih1.1
    have hpre : preorder_condition_slugs (Ast.condition title children span :: rest)
        = to_snake_case title :: (preorder_condition_slugs children ++ preorder_condition_slugs rest) := by
      rw [preorder_condition_slugs]
    by_cases hm : (to_snake_case title) ∈ seen
    · have hc : seen.contains (to_snake_case title) = true := (contains_true_iff seen _).mpr hm
      rw [if_pos hc] at heq3
      have hh2 : helpers2 = helpers := by injection heq3 with a b; exact a.symm
      have hs2 : seen2 = seen := by injection heq3 with a b; exact b.symm
      rw [hh2, hs2] at hmap21
      rw [hs2] at hseen21
      constructor
      · rw [hstep, ih2.1, hmap21, hpre]
        rw [dedupFirstAux, if_pos hm]
        rw [dedupFirstAux_append (preorder_condition_slugs children)
          (preorder_condition_slugs rest) seen seen21 hseen21]
        simp [List.append_assoc]
      · intro x
        rw [hstep, ih2.2 x, hseen21 x, hpre]
        simp only [List.mem_cons, List.mem_append]
        constructor
        · rintro ((hx | hx) | hx)
          · exact Or.inl hx
          · exact Or.inr (Or.inr (Or.inl hx))
          · exact Or.inr (Or.inr (Or.inr hx))
        · rintro (hx | rfl | hx | hx)
          · exact Or.inl (Or.inl hx)
          · exact Or.inl (Or.inl hm)
          · exact Or.inl (Or.inr hx)
          · exact Or.inr hx
    · have hc : seen.contains (to_snake_case title) = false := (contains_false_iff seen _).mpr hm
      rw [if_neg (by rw [hc]; decide)] at heq3
      have hh2 : helpers2 = helpers ++ [⟨to_snake_case title, some title, some span⟩] := by
        injection heq3 with a b; exact a.symm
      have hs2 : seen2 = to_snake_case title :: seen := by
        injection heq3 with a b; exact b.symm
      rw [hh2, hs2] at hmap21
      rw [hs2] at hseen21
      constructor
      · rw [hstep, ih2.1, hmap21, hpre]
        rw [dedupFirstAux, if_neg hm]
        rw [dedupFirstAux_append (preorder_condition_slugs children)
          (preorder_condition_slugs rest) (to_snake_case title :: seen) seen21 hseen21]
        simp [List.append_assoc]
      · intro x
        rw [hstep, ih2.2 x, hseen21 x, hpre]
        simp only [List.mem_cons, List.mem_append]
        constructor
        · rintro (((rfl | hx) | hx) | hx)
          · exact Or.inr (Or.inl rfl)
          · exact Or.inl hx
          · exact Or.inr (Or.inr (Or.inl hx))
          · exact Or.inr (Or.inr (Or.inr hx))
        · rintro (hx | rfl | hx | hx)
          · exact Or.inl (Or.inl (Or.inr hx))
          · exact Or.inl (Or.inl (Or.inl rfl))
          · exact Or.inl (Or.inr hx)
          · exact Or.inr hx
  | case3 head rest helpers seen hne ih =>
    have hstep : collect_helpers_rec (head :: rest) helpers seen
        = collect_helpers_rec rest helpers seen := by
      cases head with
      | condition t cs sp => exact (hne t cs sp rfl).elim
      | root cs => rw [collect_helpers_rec]; intro a b c h; cases h
      | action t cs sp => rw [collect_helpers_rec]; intro a b c h; cases h
      | actionDescription t => rw [collect_helpers_rec]; intro a b c h; cases h
    have hpre : preorder_condition_slugs (head :: rest) = preorder_condition_slugs rest := by
      cases head with
      | condition t cs sp => exact (hne t cs sp rfl).elim
      | root cs => rw [preorder_condition_slugs]; intro a b c h; cases h
      | action t cs sp => rw [preorder_condition_slugs]; intro a b c h; cases h
      | actionDescription t => rw [preorder_condition_slugs]; intro a b c h; cases h
    rw [hstep, hpre]
    exact ih

theorem hir_helper_names_translate_root (t : Translator) (children : List Ast) :
    hir_helper_names (translate_root t children) =
      (if t.skip_helpers then [] else collect_helpers children).map HelperFunction.name := by
  cases hsk : t.skip_helpers <;>
    simp only [translate_root, hir_helper_names, hsk, if_true, if_false,
      List.filterMap_append, List.filterMap_map, List.filterMap_cons, List.filterMap_nil,
      Bool.false_eq_true, ite_false, ite_true, List.map_nil, List.nil_append, List.append_nil]
  rw [show ((fun c =>
          match c with
          | Hir.helper h => some h.name
          | _ => none) ∘ Hir.helper) = (some ∘ HelperFunction.name) from rfl,
      List.filterMap_eq_map]

/-- C6: with `skip_helpers` false, the translator emits exactly one helper per
distinct condition slug, in pre-order first-occurrence order (later conditions
sharing a slug are merged, not re-emitted), so helper names in the HIR are
exactly the first-occurrence deduplication of the pre-order condition slugs:
they are duplicate-free and cover precisely the set of condition slugs. -/
theorem c6_helper_first_seen_dedup :
    ∀ (children : List Ast) (fmt : Bool),
      hir_helper_names (translate_root ⟨fmt, false⟩ children) =
          dedupFirstAux (preorder_condition_slugs children) [] ∧
        (hir_helper_names (translate_root ⟨fmt, false⟩ children)).Nodup ∧
        ∀ s, s ∈ hir_helper_names (translate_root ⟨fmt, false⟩ children) ↔
          s ∈ preorder_condition_slugs children := by
  intro children fmt
  have h0 : hir_helper_names (translate_root ⟨fmt, false⟩ children)
      = (collect_helpers children).map HelperFunction.name := by
    rw [hir_helper_names_translate_root]
    simp
  have h1 := (collect_helpers_rec_spec children [] []).1
  have h2 : (collect_helpers children).map HelperFunction.name
      = dedupFirstAux (preorder_condition_slugs children) [] := by
    rw [collect_helpers, h1]
    simp
  refine ⟨by rw [h0, h2], ?_, ?_⟩
  · rw [h0, h2]
    exact dedupFirstAux_nodup _ _
  · intro s
    rw [h0, h2, dedupFirstAux_mem]
    simp

/-! ### C1 and C2 -/


theorem splitWsAux_infix :
    ∀ (l cur w : List Char), w ∈ splitWsAux l cur → w <:+: (cur ++ l) := by
  intro l
  induction l with
  | nil =>
    intro cur w hw
    simp only [splitWsAux] at hw
    split at hw
    · simp at hw
    · simp only [List.mem_singleton] at hw
      subst hw
      simp
  | cons c cs ih =>
    intro cur w hw
    simp only [splitWsAux] at hw
    split at hw
    · split at hw
      · have h := ih [] w hw
        simp only [List.nil_append] at h
        exact h.trans (((List.suffix_cons c cs).trans (List.suffix_append cur (c :: cs))).isInfix)
      · rcases List.mem_cons.mp hw with rfl | hw2
        · exact ((List.prefix_append w (c :: cs)).isInfix)
        · have h := ih [] w hw2
          simp only [List.nil_append] at h
          exact h.trans (((List.suffix_cons c cs).trans (List.suffix_append cur (c :: cs))).isInfix)
    · have h := ih (cur ++ [c]) w hw
      simpa [List.append_assoc] using h

theorem panicWordMatch_implies_should_panic :
    ∀ (title : String), panicWordMatch title = true → should_panic title = true := by
  intro title h
  simp only [panicWordMatch, List.any_eq_true] at h
  obtain ⟨w, hw, kw, hkwmem, hbeq⟩ := h
  have hwe : w = kw.data := eq_of_beq hbeq
  rw [should_panic, List.any_eq_true]
  refine ⟨kw, hkwmem, ?_⟩
  rw [containsSub_iff, ← hwe]
  have h2 := splitWsAux_infix (lowerStr title).data [] w hw
  simpa using h2

def isActionNode : Ast → Bool
  | Ast.action _ _ _ => true
  | _ => false

def conds_action_free : List Ast → Bool
  | [] => true
  | Ast.condition _ children _ :: rest =>
    children.all (fun c => !isActionNode c) &&
      (conds_action_free children && conds_action_free rest)
  | _ :: rest => conds_action_free rest

def rootActs (children : List Ast) : List (String × List Ast × Span) :=
  children.filterMap (fun c =>
    match c with
    | Ast.action title cs span => some (title, cs, span)
    | _ => none)

theorem caf_cons_other :
    ∀ (head : Ast) (rest : List Ast),
      (∀ t cs sp, head ≠ Ast.condition t cs sp) →
      conds_action_free (head :: rest) = conds_action_free rest := by
  intro head rest h
  cases head with
  | condition t cs sp => exact absurd rfl (h t cs sp)
  | root cs => rw [conds_action_free]; intro t c s hh; cases hh
  | action t cs sp => rw [conds_action_free]; intro t2 c s hh; cases hh
  | actionDescription t => rw [conds_action_free]; intro t2 c s hh; cases hh

theorem process_children_cons_other :
    ∀ (fmt : Bool) (head : Ast) (rest : List Ast) (parents : List String),
      (∀ t cs sp, head ≠ Ast.condition t cs sp) →
      (∀ t cs sp, head ≠ Ast.action t cs sp) →
      process_children fmt (head :: rest) parents = process_children fmt rest parents := by
  intro fmt head rest parents h1 h2
  cases head with
  | condition t cs sp => exact absurd rfl (h1 t cs sp)
  | action t cs sp => exact absurd rfl (h2 t cs sp)
  | root cs =>
    rw [process_children]
    · intro t c s hh; cases hh
    · intro t c s hh; cases hh
  | actionDescription t =>
    rw [process_children]
    · intro t2 c s hh; cases hh
    · intro t2 c s hh; cases hh

theorem chk_collect_tests_cons_other :
    ∀ (head : Ast) (rest : List Ast) (parents : List String),
      (∀ t cs sp, head ≠ Ast.condition t cs sp) →
      (∀ t cs sp, head ≠ Ast.action t cs sp) →
      chk_collect_tests (head :: rest) parents = chk_collect_tests rest parents := by
  intro head rest parents h1 h2
  cases head with
  | condition t cs sp => exact absurd rfl (h1 t cs sp)
  | action t cs sp => exact absurd rfl (h2 t cs sp)
  | root cs =>
    rw [chk_collect_tests]
    · intro t c s hh; cases hh
    · intro t c s hh; cases hh
  | actionDescription t =>
    rw [chk_collect_tests]
    · intro t2 c s hh; cases hh
    · intro t2 c s hh; cases hh

theorem rootActs_cons_other :
    ∀ (head : Ast) (rest : List Ast),
      (∀ t cs sp, head ≠ Ast.action t cs sp) →
      rootActs (head :: rest) = rootActs rest := by
  intro head rest h
  cases head with
  | action t cs sp => exact absurd rfl (h t cs sp)
  | root cs => simp [rootActs, List.filterMap_cons]
  | condition t cs sp => simp [rootActs, List.filterMap_cons]
  | actionDescription t => simp [rootActs, List.filterMap_cons]

theorem process_children_nil_of_no_actions :
    ∀ (fmt : Bool) (cs : List Ast) (parents : List String),
      conds_action_free cs = true → cs.all (fun c => !isActionNode c) = true →
      process_children fmt cs parents = [] := by
  intro fmt cs parents
  induction cs, parents using process_children.induct fmt with
  | case1 parents => intro h1 h2; rw [process_children]
  | case2 title children span rest parents hname ihc ihr =>
    intro h1 h2
    rw [conds_action_free] at h1
    simp only [Bool.and_eq_true] at h1
    simp only [List.all_cons, Bool.and_eq_true] at h2
    rw [process_children]
    rw [ihc h1.2.1 h1.1, ihr h1.2.2 h2.2]
    rfl
  | case3 title children span rest parents ih =>
    intro h1 h2
    simp only [List.all_cons, Bool.and_eq_true, isActionNode] at h2
    exact absurd h2.1 (by decide)
  | case4 head rest parents hne1 hne2 ih =>
    intro h1 h2
    simp only [List.all_cons, Bool.and_eq_true] at h2
    rw [caf_cons_other head rest (fun t c s hh => hne1 t c s hh)] at h1
    rw [process_children_cons_other fmt head rest parents
      (fun t c s hh => hne1 t c s hh) (fun t c s hh => hne2 t c s hh)]
    exact ih h1 h2.2

theorem chk_collect_tests_nil_of_no_actions :
    ∀ (cs : List Ast) (parents : List String),
      conds_action_free cs = true → cs.all (fun c => !isActionNode c) = true →
      chk_collect_tests cs parents = [] := by
  intro cs parents
  induction cs, parents using chk_collect_tests.induct with
  | case1 parents => intro h1 h2; rw [chk_collect_tests]
  | case2 title children span rest parents hname hnew ihc ihr =>
    intro h1 h2
    rw [conds_action_free] at h1
    simp only [Bool.and_eq_true] at h1
    simp only [List.all_cons, Bool.and_eq_true] at h2
    have hact : children.filterMap (fun c =>
        match c with
        | Ast.action t _ _ => some t
        | _ => none) = [] := by
      rw [List.filterMap_eq_nil_iff]
      intro a ha
      have hna := (List.all_eq_true.mp h1.1) a ha
      cases a <;> simp [isActionNode] at hna ⊢
    rw [chk_collect_tests, hact]
    rw [ihc h1.2.1 h1.1, ihr h1.2.2 h2.2]
    rfl
  | case3 title children span rest parents ih =>
    intro h1 h2
    simp only [List.all_cons, Bool.and_eq_true, isActionNode] at h2
    exact absurd h2.1 (by decide)
  | case4 head rest parents hne1 hne2 ih =>
    intro h1 h2
    simp only [List.all_cons, Bool.and_eq_true] at h2
    rw [caf_cons_other head rest (fun t c s hh => hne1 t c s hh)] at h1
    rw [chk_collect_tests_cons_other head rest parents
      (fun t c s hh => hne1 t c s hh) (fun t c s hh => hne2 t c s hh)]
    exact ih h1 h2.2

theorem action_to_test_name_nil (t : String) :
    action_to_test_name t [] = "test_" ++ to_snake_case t := rfl

theorem process_children_root :
    ∀ (fmt : Bool) (cs : List Ast), conds_action_free cs = true →
      process_children fmt cs [] =
        (rootActs cs).map (fun a => translate_action fmt a.1 a.2.1 a.2.2 []) := by
  intro fmt cs
  induction cs with
  | nil => intro h; rw [process_children]; simp [rootActs]
  | cons head rest ih =>
    intro h
    cases head with
    | condition t c s =>
      rw [conds_action_free] at h
      simp only [Bool.and_eq_true] at h
      rw [process_children]
      rw [process_children_nil_of_no_actions fmt c ([] ++ [to_snake_case t]) h.2.1 h.1]
      rw [ih h.2.2]
      rw [rootActs_cons_other _ _ (fun t2 c2 s2 hh => by cases hh)]
      rfl
    | action t c s =>
      rw [caf_cons_other _ _ (fun t2 c2 s2 hh => by cases hh)] at h
      rw [process_children]
      rw [ih h]
      simp only [rootActs, List.filterMap_cons, List.map_cons]
    | root c =>
      rw [caf_cons_other _ _ (fun t2 c2 s2 hh => by cases hh)] at h
      rw [process_children_cons_other fmt _ _ _
        (fun t2 c2 s2 hh => by cases hh) (fun t2 c2 s2 hh => by cases hh)]
      rw [rootActs_cons_other _ _ (fun t2 c2 s2 hh => by cases hh)]
      exact ih h
    | actionDescription t =>
      rw [caf_cons_other _ _ (fun t2 c2 s2 hh => by cases hh)] at h
      rw [process_children_cons_other fmt _ _ _
        (fun t2 c2 s2 hh => by cases hh) (fun t2 c2 s2 hh => by cases hh)]
      rw [rootActs_cons_other _ _ (fun t2 c2 s2 hh => by cases hh)]
      exact ih h

theorem chk_collect_tests_root :
    ∀ (cs : List Ast), conds_action_free cs = true →
      chk_collect_tests cs [] =
        (rootActs cs).map
          (fun a => (⟨"test_" ++ to_snake_case a.1, panicWordMatch a.1⟩ : TestInfo)) := by
  intro cs
  induction cs with
  | nil => intro h; rw [chk_collect_tests]; simp [rootActs]
  | cons head rest ih =>
    intro h
    cases head with
    | condition t c s =>
      rw [conds_action_free] at h
      simp only [Bool.and_eq_true] at h
      have hact : c.filterMap (fun x =>
          match x with
          | Ast.action t2 _ _ => some t2
          | _ => none) = [] := by
        rw [List.filterMap_eq_nil_iff]
        intro a ha
        have hna := (List.all_eq_true.mp h.1) a ha
        cases a <;> simp [isActionNode] at hna ⊢
      rw [chk_collect_tests, hact]
      rw [chk_collect_tests_nil_of_no_actions c ([] ++ [to_snake_case t]) h.2.1 h.1]
      rw [ih h.2.2]
      rw [rootActs_cons_other _ _ (fun t2 c2 s2 hh => by cases hh)]
      rfl
    | action t c s =>
      rw [caf_cons_other _ _ (fun t2 c2 s2 hh => by cases hh)] at h
      rw [chk_collect_tests]
      rw [ih h]
      simp only [rootActs, List.filterMap_cons, List.map_cons]
      rfl
    | root c =>
      rw [caf_cons_other _ _ (fun t2 c2 s2 hh => by cases hh)] at h
      rw [chk_collect_tests_cons_other _ _ _
        (fun t2 c2 s2 hh => by cases hh) (fun t2 c2 s2 hh => by cases hh)]
      rw [rootActs_cons_other _ _ (fun t2 c2 s2 hh => by cases hh)]
      exact ih h
    | actionDescription t =>
      rw [caf_cons_other _ _ (fun t2 c2 s2 hh => by cases hh)] at h
      rw [chk_collect_tests_cons_other _ _ _
        (fun t2 c2 s2 hh => by cases hh) (fun t2 c2 s2 hh => by cases hh)]
      rw [rootActs_cons_other _ _ (fun t2 c2 s2 hh => by cases hh)]
      exact ih h

theorem preorder_slugs_cons_other :
    ∀ (head : Ast) (rest : List Ast),
      (∀ t cs sp, head ≠ Ast.condition t cs sp) →
      preorder_condition_slugs (head :: rest) = preorder_condition_slugs rest := by
  intro head rest h
  cases head with
  | condition t cs sp => exact absurd rfl (h t cs sp)
  | root cs => rw [preorder_condition_slugs]; intro t c s hh; cases hh
  | action t cs sp => rw [preorder_condition_slugs]; intro t2 c s hh; cases hh
  | actionDescription t => rw [preorder_condition_slugs]; intro t2 c s hh; cases hh

theorem chk_collect_helpers_cons_other :
    ∀ (head : Ast) (rest : List Ast) (acc : List String),
      (∀ t cs sp, head ≠ Ast.condition t cs sp) →
      chk_collect_helpers (head :: rest) acc = chk_collect_helpers rest acc := by
  intro head rest acc h
  cases head with
  | condition t cs sp => exact absurd rfl (h t cs sp)
  | root cs => rw [chk_collect_helpers]; intro t c s hh; cases hh
  | action t cs sp => rw [chk_collect_helpers]; intro t2 c s hh; cases hh
  | actionDescription t => rw [chk_collect_helpers]; intro t2 c s hh; cases hh

theorem collect_helpers_rec_cons_other :
    ∀ (head : Ast) (rest : List Ast) (helpers : List HelperFunction) (seen : List String),
      (∀ t cs sp, head ≠ Ast.condition t cs sp) →
      collect_helpers_rec (head :: rest) helpers seen =
        collect_helpers_rec rest helpers seen := by
  intro head rest helpers seen h
  cases head with
  | condition t cs sp => exact absurd rfl (h t cs sp)
  | root cs => rw [collect_helpers_rec]; intro t c s hh; cases hh
  | action t cs sp => rw [collect_helpers_rec]; intro t2 c s hh; cases hh
  | actionDescription t => rw [collect_helpers_rec]; intro t2 c s hh; cases hh

theorem chk_collect_helpers_mem :
    ∀ (cs : List Ast) (acc : List String) (x : String),
      x ∈ chk_collect_helpers cs acc ↔ x ∈ acc ∨ x ∈ preorder_condition_slugs cs := by
  intro cs acc
  induction cs, acc using chk_collect_helpers.induct with
  | case1 acc => intro x; rw [chk_collect_helpers, preorder_condition_slugs]; simp
  | case2 title children span rest acc name acc1 ihc ih4 ih3 ih2 ihr =>
    intro x
    have hacc1 : ∀ y : String, y ∈ acc1 ↔ y ∈ acc ∨ y = to_snake_case title := by
      intro y
      show y ∈ (if acc.contains (to_snake_case title) = true then acc
          else acc ++ [to_snake_case title]) ↔ _
      by_cases hm : acc.contains (to_snake_case title) = true
      · rw [if_pos hm]
        have hmm : to_snake_case title ∈ acc := (contains_true_iff _ _).mp hm
        constructor
        · exact Or.inl
        · rintro (hy | rfl)
          · exact hy
          · exact hmm
      · rw [if_neg hm]
        simp [List.mem_append]
    have hgoal : x ∈ chk_collect_helpers (Ast.condition title children span :: rest) acc ↔
        x ∈ chk_collect_helpers rest (chk_collect_helpers children acc1) := by
      rw [chk_collect_helpers]
      rfl
    rw [hgoal, ihr x, ihc x, hacc1 x, preorder_condition_slugs]
    simp only [List.mem_cons, List.mem_append]
    tauto
  | case3 head rest acc hne ihr =>
    intro x
    rw [chk_collect_helpers_cons_other head rest acc (fun t c s hh => hne t c s hh)]
    rw [preorder_slugs_cons_other head rest (fun t c s hh => hne t c s hh)]
    exact ihr x

theorem findSome?_helpers_skip (hs : List HelperFunction) (rest : List Hir) :
    ((hs.map Hir.helper ++ rest).findSome? (fun c =>
      match c with
      | Hir.testModule _ m => some m
      | _ => none)) = rest.findSome? (fun c =>
      match c with
      | Hir.testModule _ m => some m
      | _ => none) := by
  induction hs with
  | nil => rfl
  | cons h hs ih => simpa [List.findSome?_cons] using ih

theorem facts_of_translate_root (t : Translator) (children : List Ast) :
    facts_of_hir (translate_root t children) =
      { testModuleFns := some ((process_children t.format_descriptions children []).filterMap
          (fun m =>
            match m with
            | Hir.testFunction nm attrs _ _ _ =>
              some ⟨nm, attrs.contains Attribute.test, attrs.contains Attribute.shouldPanic⟩
            | _ => none))
        topFns := (if t.skip_helpers then [] else collect_helpers children).map
          (fun h => ⟨h.name, false, false⟩) } := by
  rw [translate_root, facts_of_hir]
  simp only [ParsedRustFile.mk.injEq]
  constructor
  · simp only [List.nil_append, List.cons_append, List.findSome?_cons]
    rw [findSome?_helpers_skip]
    simp only [List.findSome?_cons]
  · simp only [List.filterMap_append, List.filterMap_cons, List.filterMap_nil,
      List.filterMap_map]
    rw [show ((fun c =>
        match c with
        | Hir.helper h => some (⟨h.name, false, false⟩ : RustFn)
        | _ => none) ∘ Hir.helper) = (fun h => some (⟨h.name, false, false⟩ : RustFn)) from rfl]
    rw [show (fun (h : HelperFunction) => some (⟨h.name, false, false⟩ : RustFn))
      = (some ∘ (fun (h : HelperFunction) => (⟨h.name, false, false⟩ : RustFn))) from rfl]
    rw [List.filterMap_eq_map]
    simp

theorem translate_action_proj (fmt : Bool) (t : String) (cs : List Ast) (sp : Span)
    (helpers : List String) :
    (match translate_action fmt t cs sp helpers with
     | Hir.testFunction nm attrs _ _ _ =>
       some (⟨nm, attrs.contains Attribute.test, attrs.contains Attribute.shouldPanic⟩ : RustFn)
     | _ => none) =
      some ⟨action_to_test_name t helpers, true, should_panic t⟩ := by
  rw [translate_action]
  cases h : should_panic t <;> simp [h]

theorem find_test_functions_scaffold (fmt : Bool) (t : Translator) (children : List Ast)
    (hcaf : conds_action_free children = true) (ht : t.format_descriptions = fmt) :
    find_test_functions (facts_of_hir (translate_root t children)) =
      (rootActs children).map
        (fun a => ⟨action_to_test_name a.1 [], true, should_panic a.1⟩) := by
  rw [find_test_functions, facts_of_translate_root, ht]
  dsimp only
  rw [process_children_root fmt children hcaf]
  rw [List.filterMap_map]
  rw [show ((fun m =>
      match m with
      | Hir.testFunction nm attrs _ _ _ =>
        some (⟨nm, attrs.contains Attribute.test, attrs.contains Attribute.shouldPanic⟩ : RustFn)
      | _ => none) ∘ (fun (a : String × List Ast × Span) => translate_action fmt a.1 a.2.1 a.2.2 []))
    = (fun (a : String × List Ast × Span) =>
        some (⟨action_to_test_name a.1 [], true, should_panic a.1⟩ : RustFn)) from by
    funext a
    exact translate_action_proj fmt a.1 a.2.1 a.2.2 []]
  rw [show (fun (a : String × List Ast × Span) =>
      some (⟨action_to_test_name a.1 [], true, should_panic a.1⟩ : RustFn))
    = (some ∘ (fun (a : String × List Ast × Span) =>
      (⟨action_to_test_name a.1 [], true, should_panic a.1⟩ : RustFn))) from rfl]
  rw [List.filterMap_eq_map]
  simp only [Option.getD_some]
  apply List.filter_eq_self.mpr
  intro f hf
  obtain ⟨a, ha, rfl⟩ := List.mem_map.mp hf
  rfl

theorem find_helper_functions_scaffold (t : Translator) (children : List Ast) :
    find_helper_functions (facts_of_hir (translate_root t children)) =
      (if t.skip_helpers then [] else collect_helpers children).map
        (fun h => ⟨h.name, false, false⟩) := by
  rw [find_helper_functions, facts_of_translate_root]
  dsimp only
  apply List.filter_eq_self.mpr
  intro f hf
  obtain ⟨a, ha, rfl⟩ := List.mem_map.mp hf
  rfl

theorem find?_map_acts_nodup :
    ∀ (acts : List (String × List Ast × Span)) (a : String × List Ast × Span),
      a ∈ acts →
      ((acts.map (fun x => action_to_test_name x.1 [])).Nodup) →
      (acts.map (fun x =>
          (⟨action_to_test_name x.1 [], true, should_panic x.1⟩ : RustFn))).find?
          (fun f => f.name == action_to_test_name a.1 []) =
        some ⟨action_to_test_name a.1 [], true, should_panic a.1⟩ := by
  intro acts
  induction acts with
  | nil => intro a ha _; cases ha
  | cons b rest ih =>
    intro a ha hnd
    simp only [List.map_cons, List.nodup_cons] at hnd
    rcases List.mem_cons.mp ha with rfl | ha2
    · rw [List.map_cons, List.find?_cons]
      simp only [beq_self_eq_true]
    · rw [List.map_cons, List.find?_cons]
      have hne : (action_to_test_name b.1 [] == action_to_test_name a.1 []) = false := by
        apply beq_eq_false_iff_ne.mpr
        intro he
        apply hnd.1
        rw [he]
        exact List.mem_map.mpr ⟨a, ha2, rfl⟩
      simp only [hne]
      exact ih a ha2 hnd.2

theorem flatMap_eq_nil_of_forall :
    ∀ (l : List TestInfo) (f : TestInfo → List Violation),
      (∀ a ∈ l, f a = []) → l.flatMap f = [] := by
  intro l f
  induction l with
  | nil => intro h; rfl
  | cons a rest ih =>
    intro h
    rw [List.flatMap_cons, h a (by simp), ih (fun b hb => h b (by simp [hb]))]
    rfl

/-- C1 amended: checking immediately after an unmodified scaffold of the same
tree and configuration yields zero violations for trees in which no condition
node has a direct action child (all tests come from root-level actions) and
the root-level test names are pairwise distinct; in general it fails, because
the checker expects condition tests named `test_when_<conditionSlug>` while the
scaffold emits `test_<conditionSlug>_<actionSlug>`. -/
theorem c1_amended :
    ∀ (children : List Ast) (cfg : Config) (path : String),
      conds_action_free children = true →
      ((rootActs children).map (fun a => action_to_test_name a.1 [])).Nodup →
      check_structural_match (Ast.root children)
          (Except.ok (facts_of_hir
            (translate_root ⟨cfg.format_descriptions, cfg.skip_helpers⟩ children)))
          path cfg =
        Except.ok [] := by
  intro children cfg path hcaf hnd
  set p := facts_of_hir (translate_root ⟨cfg.format_descriptions, cfg.skip_helpers⟩ children)
    with hp
  obtain ⟨ms, hms⟩ : ∃ ms, p.testModuleFns = some ms := by
    rw [hp, facts_of_translate_root]
    exact ⟨_, rfl⟩
  have hhelpers : (find_helper_functions p).map RustFn.name =
      (if cfg.skip_helpers then [] else collect_helpers children).map HelperFunction.name := by
    rw [hp, find_helper_functions_scaffold, List.map_map]
    rfl
  have hfound : find_test_functions p =
      (rootActs children).map
        (fun a => (⟨action_to_test_name a.1 [], true, should_panic a.1⟩ : RustFn)) := by
    rw [hp]
    exact find_test_functions_scaffold cfg.format_descriptions _ children hcaf rfl
  have hexp : (extract_expected_structure children cfg).test_functions
      = (rootActs children).map
          (fun a => (⟨"test_" ++ to_snake_case a.1, panicWordMatch a.1⟩ : TestInfo)) := by
    rw [extract_expected_structure]
    exact chk_collect_tests_root children hcaf
  rw [check_structural_match, hms]
  dsimp only
  have hHV : (if cfg.skip_helpers = true then []
      else
        ((extract_expected_structure children cfg).helpers.filter (fun h =>
            !((find_helper_functions p).map RustFn.name).contains h)).map
          (fun h => Violation.new (ViolationKind.helperFunctionMissing h) path)) = [] := by
    cases hsk : cfg.skip_helpers with
    | true => simp
    | false =>
      rw [if_neg (by simp)]
      rw [show (extract_expected_structure children cfg).helpers.filter (fun h =>
          !((find_helper_functions p).map RustFn.name).contains h) = [] from ?_]
      · simp
      · apply List.filter_eq_nil_iff.mpr
        intro h hmem
        rw [extract_expected_structure] at hmem
        dsimp only at hmem
        rw [if_neg (by simp [hsk])] at hmem
        have hpre : h ∈ preorder_condition_slugs children := by
          have hx := (chk_collect_helpers_mem children [] h).mp hmem
          simpa using hx
        have hname : h ∈ (collect_helpers children).map HelperFunction.name := by
          have hspec := (collect_helpers_rec_spec children [] []).1
          rw [collect_helpers, hspec]
          simp only [List.map_nil, List.nil_append]
          rw [dedupFirstAux_mem]
          simpa using hpre
        have hcont : ((find_helper_functions p).map RustFn.name).contains h = true := by
          apply (contains_true_iff _ _).mpr
          rw [hhelpers, if_neg (by simp [hsk])]
          exact hname
        rw [hcont]
        decide
  have hTV : (extract_expected_structure children cfg).test_functions.flatMap (fun t =>
      if !((find_test_functions p).map RustFn.name).contains t.name then
        [Violation.new (ViolationKind.testFunctionMissing t.name) path]
      else
        match (find_test_functions p).find? (fun f => f.name == t.name) with
        | some f =>
          if t.should_panic && !f.hasShouldPanicAttr then
            [Violation.new
              (ViolationKind.testAttributeIncorrect t.name "#[should_panic]" "none") path]
          else []
        | none => []) = [] := by
    rw [hexp]
    apply flatMap_eq_nil_of_forall
    intro t ht
    obtain ⟨a, ha, rfl⟩ := List.mem_map.mp ht
    have hcont : ((find_test_functions p).map RustFn.name).contains
        ("test_" ++ to_snake_case a.1) = true := by
      apply (contains_true_iff _ _).mpr
      rw [hfound, List.map_map]
      apply List.mem_map.mpr
      exact ⟨a, ha, (action_to_test_name_nil a.1).symm⟩
    rw [if_neg (by rw [hcont]; decide)]
    rw [hfound]
    rw [show (fun (f : RustFn) => f.name ==
        (⟨"test_" ++ to_snake_case a.1, panicWordMatch a.1⟩ : TestInfo).name)
      = (fun (f : RustFn) => f.name == action_to_test_name a.1 []) from by
      funext f
      rw [action_to_test_name_nil]]
    rw [find?_map_acts_nodup (rootActs children) a ha hnd]
    cases hw : panicWordMatch a.1 with
    | false => simp [hw]
    | true =>
      have hsp : should_panic a.1 = true := panicWordMatch_implies_should_panic a.1 hw
      simp [hw, hsp]
  rw [hHV, hTV]
  rfl

theorem hir_test_module_children_translate_root (t : Translator) (children : List Ast) :
    hir_test_module_children (translate_root t children) =
      process_children t.format_descriptions children [] := by
  rw [translate_root, hir_test_module_children]
  simp only [List.nil_append, List.cons_append, List.findSome?_cons]
  rw [findSome?_helpers_skip]
  simp only [List.findSome?_cons]
  rfl

/-- C2 amended: the checker and the generator derive the same test-unit
sequence only in restricted cases: for trees in which no condition node has a
direct action child, the expected units and the generated test functions
correspond pairwise, with equal names (`test_<actionSlug>`), and a set
expected-failure flag (whole-word keyword match) implies the generated
`#[should_panic]` attribute (substring match); in general the two paths
disagree, since the checker expects one unit per condition named
`test_when_<conditionSlug>` with whole-word keyword matching while the
generator emits one unit per action named `test_<lastHelper>_<actionSlug>`
with substring matching. -/
theorem c2_amended :
    ∀ (children : List Ast) (cfg : Config),
      conds_action_free children = true →
      List.Forall₂ (fun (e : TestInfo) (h : Hir) =>
          e.name = hirTestFnName h ∧
            (e.should_panic = true → Attribute.shouldPanic ∈ hirAttributes h))
        ((extract_expected_structure children cfg).test_functions)
        (hir_test_module_children
          (translate_root ⟨cfg.format_descriptions, cfg.skip_helpers⟩ children)) := by
  intro children cfg hcaf
  have h1 : (extract_expected_structure children cfg).test_functions
      = (rootActs children).map
          (fun a => (⟨"test_" ++ to_snake_case a.1, panicWordMatch a.1⟩ : TestInfo)) := by
    rw [extract_expected_structure]
    exact chk_collect_tests_root children hcaf
  have h2 : hir_test_module_children
        (translate_root ⟨cfg.format_descriptions, cfg.skip_helpers⟩ children)
      = (rootActs children).map
          (fun a => translate_action cfg.format_descriptions a.1 a.2.1 a.2.2 []) := by
    rw [hir_test_module_children_translate_root]
    exact process_children_root cfg.format_descriptions children hcaf
  rw [h1, h2]
  induction rootActs children with
  | nil => exact List.Forall₂.nil
  | cons a rest ih =>
    simp only [List.map_cons]
    refine List.Forall₂.cons ⟨?_, ?_⟩ ih
    · rw [show hirTestFnName (translate_action cfg.format_descriptions a.1 a.2.1 a.2.2 [])
        = action_to_test_name a.1 [] from rfl]
      exact (action_to_test_name_nil a.1).symm
    · intro hw
      have hsp : should_panic a.1 = true := panicWordMatch_implies_should_panic a.1 hw
      rw [show hirAttributes (translate_action cfg.format_descriptions a.1 a.2.1 a.2.2 [])
        = [Attribute.test] ++ (if should_panic a.1 then [Attribute.shouldPanic] else [])
        from rfl]
      rw [hsp]
      simp

/-- C1 counterexample: for the tree `Root -> Condition "When x" -> Action
"It does y"`, checking the scaffold output of that very tree produces the
violation `TestFunctionMissing test_when_x`, not an empty list. -/
theorem c1_counterexample :
    check_structural_match (Ast.root [Ast.condition "When x" [Ast.action "It does y" [] {}] {}])
        (Except.ok (facts_of_hir (translate_root ⟨false, false⟩
          [Ast.condition "When x" [Ast.action "It does y" [] {}] {}])))
        "p" {} =
      Except.ok [Violation.new (ViolationKind.testFunctionMissing "test_when_x") "p"] ∧
      check_structural_match (Ast.root [Ast.condition "When x" [Ast.action "It does y" [] {}] {}])
        (Except.ok (facts_of_hir (translate_root ⟨false, false⟩
          [Ast.condition "When x" [Ast.action "It does y" [] {}] {}])))
        "p" {} ≠ Except.ok [] := by
  have hA : collect_helpers [Ast.condition "When x" [Ast.action "It does y" [] {}] {}] =
      [⟨"x", some "When x", some ⟨0, 0⟩⟩] := by
    rw [collect_helpers, collect_helpers_rec]
    rw [if_neg]
    case hnc => decide
    dsimp only
    rw [collect_helpers_rec_cons_other _ _ _ _ (by intro t c s hh; cases hh)]
    rw [collect_helpers_rec, collect_helpers_rec]
    rfl
  have hP : process_children false
      [Ast.condition "When x" [Ast.action "It does y" [] {}] {}] [] =
      [Hir.testFunction "test_x_does_y" [Attribute.test] ["x"]
        [Hir.comment ⟨"It does y", false⟩] (some ⟨0, 0⟩)] := by
    simp only [process_children, translate_action]
    rfl
  have hT : translate_root ⟨false, false⟩
      [Ast.condition "When x" [Ast.action "It does y" [] {}] {}] =
      Hir.root [Hir.context ⟨"TestContext", some "Context for test conditions"⟩,
        Hir.helper ⟨"x", some "When x", some ⟨0, 0⟩⟩,
        Hir.testModule "tests"
          [Hir.testFunction "test_x_does_y" [Attribute.test] ["x"]
            [Hir.comment ⟨"It does y", false⟩] (some ⟨0, 0⟩)]] := by
    rw [translate_root, hA, hP]
    rfl
  have hF : facts_of_hir
      (Hir.root [Hir.context ⟨"TestContext", some "Context for test conditions"⟩,
        Hir.helper ⟨"x", some "When x", some ⟨0, 0⟩⟩,
        Hir.testModule "tests"
          [Hir.testFunction "test_x_does_y" [Attribute.test] ["x"]
            [Hir.comment ⟨"It does y", false⟩] (some ⟨0, 0⟩)]]) =
      (⟨some [⟨"test_x_does_y", true, false⟩], [⟨"x", false, false⟩]⟩ : ParsedRustFile) := by
    simp only [facts_of_hir]
    rfl
  have hC : check_structural_match
      (Ast.root [Ast.condition "When x" [Ast.action "It does y" [] {}] {}])
      (Except.ok (⟨some [⟨"test_x_does_y", true, false⟩],
        [⟨"x", false, false⟩]⟩ : ParsedRustFile)) "p" {} =
      Except.ok [Violation.new (ViolationKind.testFunctionMissing "test_when_x") "p"] := by
    simp only [check_structural_match, extract_expected_structure, chk_collect_tests,
      chk_collect_helpers]
    decide
  rw [hT, hF, hC]
  exact ⟨rfl, by decide⟩

/-- C2 counterexample: for `Root -> Condition "When x" -> Action "It does y"`
the checker expects `[test_when_x]` while generation produces
`[test_x_does_y]`; and for the root action `It handles failure` the checker
derives expect-failure `false` (whole-word match) while generation emits
`#[should_panic]` (substring match on `fail`). -/
theorem c2_counterexample :
    (extract_expected_structure [Ast.condition "When x" [Ast.action "It does y" [] {}] {}]
        {}).test_functions.map TestInfo.name = ["test_when_x"] ∧
      (hir_test_module_children (translate_root ⟨false, false⟩
          [Ast.condition "When x" [Ast.action "It does y" [] {}] {}])).map hirTestFnName =
        ["test_x_does_y"] ∧
      ("test_when_x" : String) ≠ "test_x_does_y" ∧
      (extract_expected_structure [Ast.action "It handles failure" [] {}] {}).test_functions =
        [⟨"test_handles_failure", false⟩] ∧
      hirAttributes ((hir_test_module_children (translate_root ⟨false, false⟩
          [Ast.action "It handles failure" [] {}])).headD (Hir.comment ⟨"", false⟩)) =
        [Attribute.test, Attribute.shouldPanic] := by
  have hA : collect_helpers [Ast.condition "When x" [Ast.action "It does y" [] {}] {}] =
      [⟨"x", some "When x", some ⟨0, 0⟩⟩] := by
    rw [collect_helpers, collect_helpers_rec]
    rw [if_neg]
    case hnc => decide
    dsimp only
    rw [collect_helpers_rec_cons_other _ _ _ _ (by intro t c s hh; cases hh)]
    rw [collect_helpers_rec, collect_helpers_rec]
    rfl
  have hP : process_children false
      [Ast.condition "When x" [Ast.action "It does y" [] {}] {}] [] =
      [Hir.testFunction "test_x_does_y" [Attribute.test] ["x"]
        [Hir.comment ⟨"It does y", false⟩] (some ⟨0, 0⟩)] := by
    simp only [process_children, translate_action]
    rfl
  have hT : translate_root ⟨false, false⟩
      [Ast.condition "When x" [Ast.action "It does y" [] {}] {}] =
      Hir.root [Hir.context ⟨"TestContext", some "Context for test conditions"⟩,
        Hir.helper ⟨"x", some "When x", some ⟨0, 0⟩⟩,
        Hir.testModule "tests"
          [Hir.testFunction "test_x_does_y" [Attribute.test] ["x"]
            [Hir.comment ⟨"It does y", false⟩] (some ⟨0, 0⟩)]] := by
    rw [translate_root, hA, hP]
    rfl
  have hA2 : collect_helpers [Ast.action "It handles failure" [] {}] = [] := by
    rw [collect_helpers, collect_helpers_rec_cons_other _ _ _ _ (by intro t c s hh; cases hh),
      collect_helpers_rec]
  have hP2 : process_children false [Ast.action "It handles failure" [] {}] [] =
      [Hir.testFunction "test_handles_failure" [Attribute.test, Attribute.shouldPanic] []
        [Hir.comment ⟨"It handles failure", false⟩] (some ⟨0, 0⟩)] := by
    simp only [process_children, translate_action]
    rfl
  have hT2 : translate_root ⟨false, false⟩ [Ast.action "It handles failure" [] {}] =
      Hir.root [Hir.context ⟨"TestContext", some "Context for test conditions"⟩,
        Hir.testModule "tests"
          [Hir.testFunction "test_handles_failure" [Attribute.test, Attribute.shouldPanic] []
            [Hir.comment ⟨"It handles failure", false⟩] (some ⟨0, 0⟩)]] := by
    rw [translate_root, hA2, hP2]
    rfl
  refine ⟨?_, ?_, by decide, ?_, ?_⟩
  · simp only [extract_expected_structure, chk_collect_tests, chk_collect_helpers]
    decide
  · rw [hT]
    rfl
  · simp only [extract_expected_structure, chk_collect_tests, chk_collect_helpers]
    decide
  · rw [hT2]
    rfl

/-- Witness for the hypotheses of `c1_amended`. -/
theorem c1_witness :
    check_structural_match (Ast.root [Ast.action "It works" [] {}])
        (Except.ok (facts_of_hir (translate_root ⟨false, false⟩ [Ast.action "It works" [] {}])))
        "p" {} =
      Except.ok [] :=
  c1_amended [Ast.action "It works" [] {}] {} "p"
    (by simp [conds_action_free]) (by decide)

/-- Witness for the hypothesis of `c2_amended`. -/
theorem c2_witness :
    List.Forall₂ (fun (e : TestInfo) (h : Hir) =>
        e.name = hirTestFnName h ∧
          (e.should_panic = true → Attribute.shouldPanic ∈ hirAttributes h))
      ((extract_expected_structure [Ast.action "It works" [] {}] {}).test_functions)
      (hir_test_module_children (translate_root ⟨false, false⟩ [Ast.action "It works" [] {}])) :=
  c2_amended [Ast.action "It works" [] {}] {} (by simp [conds_action_free])

/-! ### C4 -/


theorem toNat_ofNat_valid (n : Nat) (hv : n.isValidChar) : (Char.ofNat n).toNat = n := by
  rw [Char.ofNat, dif_pos hv]
  rfl

theorem toLower_ne_underscore (c : Char) (h : c.isAlphanum = true) : c.toLower ≠ '_' := by
  have hnum : (48 ≤ c.toNat ∧ c.toNat ≤ 57) ∨ (65 ≤ c.toNat ∧ c.toNat ≤ 90) ∨
      (97 ≤ c.toNat ∧ c.toNat ≤ 122) := by
    simp only [Char.isAlphanum, Char.isAlpha, Char.isDigit, Char.isUpper, Char.isLower,
      Bool.or_eq_true, Bool.and_eq_true, decide_eq_true_eq] at h
    rcases h with (⟨h1, h2⟩ | ⟨h1, h2⟩) | ⟨h1, h2⟩
    · right; left
      exact ⟨h1, h2⟩
    · right; right
      exact ⟨h1, h2⟩
    · left
      exact ⟨h1, h2⟩
  have h95 : ('_' : Char).toNat = 95 := by decide
  rw [Char.toLower]
  by_cases hU : c.toNat ≥ 65 ∧ c.toNat ≤ 90
  · rw [if_pos hU]
    intro he
    have hofn : (Char.ofNat (c.toNat + 32)).toNat = c.toNat + 32 :=
      toNat_ofNat_valid _ (Or.inl (by omega))
    rw [he, h95] at hofn
    omega
  · rw [if_neg hU]
    intro he
    rw [he] at hnum
    rw [h95] at hnum
    omega

theorem joinSep_append_singleton :
    ∀ (ts : List (List Char)) (x : List Char),
      joinSep (ts ++ [x]) = if ts.isEmpty then x else joinSep ts ++ '_' :: x := by
  intro ts
  induction ts with
  | nil => intro x; rfl
  | cons t ts ih =>
    intro x
    cases ts with
    | nil => rfl
    | cons t2 ts2 =>
      rw [show (t :: t2 :: ts2) ++ [x] = t :: t2 :: (ts2 ++ [x]) from rfl]
      rw [show joinSep (t :: t2 :: (ts2 ++ [x]))
        = t ++ '_' :: joinSep (t2 :: (ts2 ++ [x])) from rfl]
      rw [show (t2 : List Char) :: (ts2 ++ [x]) = (t2 :: ts2) ++ [x] from rfl]
      rw [ih x]
      simp [joinSep]

theorem joinSep_append_last :
    ∀ (ts : List (List Char)) (x y : List Char),
      joinSep (ts ++ [x ++ y]) = joinSep (ts ++ [x]) ++ y := by
  intro ts x y
  rw [joinSep_append_singleton, joinSep_append_singleton]
  cases ts with
  | nil => simp
  | cons t ts2 => simp

theorem joinSep_append_ne_nil :
    ∀ (ts : List (List Char)) (x : List Char), x ≠ [] → joinSep (ts ++ [x]) ≠ [] := by
  intro ts x hx
  rw [joinSep_append_singleton]
  cases ts with
  | nil => simpa using hx
  | cons t ts2 => simp

/-- The tokenization view used by the amended naming claim: the same traversal
as `snakeLoop`, collecting tokens instead of flat characters.  A token break
occurs before an uppercase character that follows an alphanumeric one and at
whitespace/hyphen runs following an alphanumeric character; other characters
are dropped without starting a token. -/
def snakeTokens : List Char → Bool → List Char → List (List Char)
  | [], _, cur => [cur]
  | c :: cs, prev, cur =>
    if c.isAlphanum then
      if c.isUpper && prev then cur :: snakeTokens cs true [c.toLower]
      else snakeTokens cs true (cur ++ [c.toLower])
    else if c.isWhitespace || c == '-' then
      if prev then cur :: snakeTokens cs false []
      else snakeTokens cs false cur
    else
      snakeTokens cs false cur

/-- The amended specification of the Rust slug function, stated as in the
amended claim: trim, strip one of the nine exact keyword forms, tokenize per
`snakeTokens`, drop empty tokens and join the lower-cased tokens with single
underscores. -/
def slug_spec (s : String) : String :=
  ⟨joinSep ((snakeTokens (stripBdd (trimAsciiWs s.data)) false []).filter
    (fun t => !t.isEmpty))⟩

theorem snakeLoop_joinSep :
    ∀ (cs : List Char) (prev : Bool) (cur : List Char) (pre : List (List Char)),
      (prev = true → cur ≠ []) →
      snakeLoop cs prev (joinSep (pre ++ [cur])) =
        joinSep (pre ++ snakeTokens cs prev cur) := by
  intro cs
  induction cs with
  | nil => intro prev cur pre hcur; rfl
  | cons c cs ih =>
    intro prev cur pre hcur
    rw [snakeLoop, snakeTokens]
    by_cases ha : c.isAlphanum = true
    · rw [if_pos ha, if_pos ha]
      dsimp only
      by_cases hup : (c.isUpper && prev) = true
      · have hprev : prev = true := ((Bool.and_eq_true _ _).mp hup).2
        have hcne : cur ≠ [] := hcur hprev
        have hacc : (joinSep (pre ++ [cur])).isEmpty = false := by
          have hne := joinSep_append_ne_nil pre cur hcne
          cases h : joinSep (pre ++ [cur]) with
          | nil => exact absurd h hne
          | cons a l => rfl
        rw [if_pos hup]
        rw [show (c.isUpper && prev && !(joinSep (pre ++ [cur])).isEmpty) = true from by
          rw [hup, hacc]
          rfl]
        rw [if_pos rfl]
        rw [show joinSep (pre ++ [cur]) ++ ['_'] ++ [c.toLower]
          = joinSep ((pre ++ [cur]) ++ [[c.toLower]]) from by
          have hne : (pre ++ [cur]).isEmpty = false := by
            cases h : pre ++ [cur] with
            | nil => simp at h
            | cons a l => rfl
          rw [joinSep_append_singleton (pre ++ [cur]) [c.toLower], hne]
          simp only [Bool.false_eq_true, if_false]
          simp]
        rw [ih true [c.toLower] (pre ++ [cur]) (by intro h2; simp)]
        rw [List.append_assoc]
        rfl
      · have hupf : (c.isUpper && prev) = false := by
          cases h : (c.isUpper && prev) with
          | true => exact absurd h hup
          | false => rfl
        rw [hupf]
        simp only [Bool.false_and, Bool.false_eq_true, if_false]
        rw [show joinSep (pre ++ [cur]) ++ [c.toLower]
          = joinSep (pre ++ [cur ++ [c.toLower]]) from
          (joinSep_append_last pre cur [c.toLower]).symm]
        exact ih true (cur ++ [c.toLower]) pre (by intro h2; simp)
    · rw [if_neg ha, if_neg ha]
      by_cases hws : (c.isWhitespace || c == '-') = true
      · rw [if_pos hws, if_pos hws]
        cases hprev : prev with
        | true =>
          rw [if_pos rfl, if_pos rfl]
          rw [show joinSep (pre ++ [cur]) ++ ['_']
            = joinSep ((pre ++ [cur]) ++ [[]]) from by
            have hne : (pre ++ [cur]).isEmpty = false := by
              cases h : pre ++ [cur] with
              | nil => simp at h
              | cons a l => rfl
            rw [joinSep_append_singleton (pre ++ [cur]) [], hne]
            simp only [Bool.false_eq_true, if_false]]
          rw [ih false [] (pre ++ [cur]) (by intro h2; cases h2)]
          rw [List.append_assoc]
          rfl
        | false =>
          rw [if_neg (by decide), if_neg (by decide)]
          exact ih false cur pre (by intro h2; cases h2)
      · have hwsf : (c.isWhitespace || c == '-') = false := by
          cases h : (c.isWhitespace || c == '-') with
          | true => exact absurd h hws
          | false => rfl
        rw [hwsf]
        simp only [Bool.false_eq_true, if_false]
        exact ih false cur pre (by intro h2; cases h2)

theorem snakeTokens_ne_nil :
    ∀ (cs : List Char) (prev : Bool) (cur : List Char), snakeTokens cs prev cur ≠ [] := by
  intro cs
  induction cs with
  | nil => intro prev cur; simp [snakeTokens]
  | cons c cs ih =>
    intro prev cur
    rw [snakeTokens]
    by_cases ha : c.isAlphanum = true
    · rw [if_pos ha]
      by_cases hup : (c.isUpper && prev) = true
      · rw [if_pos hup]; simp
      · rw [if_neg hup]; exact ih true (cur ++ [c.toLower])
    · rw [if_neg ha]
      by_cases hws : (c.isWhitespace || c == '-') = true
      · rw [if_pos hws]
        cases prev with
        | true => simp
        | false => rw [if_neg (by decide)]; exact ih false cur
      · rw [if_neg hws]; exact ih false cur

theorem snakeTokens_dropLast_ne_nil :
    ∀ (cs : List Char) (prev : Bool) (cur : List Char),
      (prev = true → cur ≠ []) →
      ∀ u ∈ (snakeTokens cs prev cur).dropLast, u ≠ [] := by
  intro cs
  induction cs with
  | nil => intro prev cur hcur u hu; simp [snakeTokens] at hu
  | cons c cs ih =>
    intro prev cur hcur u hu
    rw [snakeTokens] at hu
    by_cases ha : c.isAlphanum = true
    · rw [if_pos ha] at hu
      by_cases hup : (c.isUpper && prev) = true
      · rw [if_pos hup] at hu
        have hprev : prev = true := ((Bool.and_eq_true _ _).mp hup).2
        rw [List.dropLast_cons_of_ne_nil (snakeTokens_ne_nil cs true [c.toLower])] at hu
        rcases List.mem_cons.mp hu with rfl | hu2
        · exact hcur hprev
        · exact ih true [c.toLower] (by intro h2; simp) u hu2
      · rw [if_neg hup] at hu
        exact ih true (cur ++ [c.toLower]) (by intro h2; simp) u hu
    · rw [if_neg ha] at hu
      by_cases hws : (c.isWhitespace || c == '-') = true
      · rw [if_pos hws] at hu
        cases hprev : prev with
        | true =>
          rw [hprev, if_pos rfl] at hu
          rw [List.dropLast_cons_of_ne_nil (snakeTokens_ne_nil cs false [])] at hu
          rcases List.mem_cons.mp hu with rfl | hu2
          · exact hcur hprev
          · exact ih false [] (by intro h2; cases h2) u hu2
        | false =>
          rw [hprev, if_neg (by decide)] at hu
          exact ih false cur (by intro h2; cases h2) u hu
      · rw [if_neg hws] at hu
        exact ih false cur (by intro h2; cases h2) u hu

theorem snakeTokens_no_underscore :
    ∀ (cs : List Char) (prev : Bool) (cur : List Char),
      ('_' ∉ cur) → ∀ u ∈ snakeTokens cs prev cur, '_' ∉ u := by
  intro cs
  induction cs with
  | nil => intro prev cur hcur u hu; simp [snakeTokens] at hu; subst hu; exact hcur
  | cons c cs ih =>
    intro prev cur hcur u hu
    rw [snakeTokens] at hu
    by_cases ha : c.isAlphanum = true
    · rw [if_pos ha] at hu
      have hlow : '_' ∉ [c.toLower] := by
        intro hx
        rcases List.mem_singleton.mp hx with hx2
        exact toLower_ne_underscore c ha hx2.symm
      by_cases hup : (c.isUpper && prev) = true
      · rw [if_pos hup] at hu
        rcases List.mem_cons.mp hu with rfl | hu2
        · exact hcur
        · exact ih true [c.toLower] hlow u hu2
      · rw [if_neg hup] at hu
        refine ih true (cur ++ [c.toLower]) ?_ u hu
        intro hx
        rcases List.mem_append.mp hx with hx2 | hx2
        · exact hcur hx2
        · exact hlow hx2
    · rw [if_neg ha] at hu
      by_cases hws : (c.isWhitespace || c == '-') = true
      · rw [if_pos hws] at hu
        cases hprev : prev with
        | true =>
          rw [hprev, if_pos rfl] at hu
          rcases List.mem_cons.mp hu with rfl | hu2
          · exact hcur
          · exact ih false [] (by simp) u hu2
        | false =>
          rw [hprev, if_neg (by decide)] at hu
          exact ih false cur hcur u hu
      · rw [if_neg hws] at hu
        exact ih false cur hcur u hu

theorem trimEnd_append_underscore (l : List Char) :
    trimEndUnderscores (l ++ ['_']) = trimEndUnderscores l := by
  rw [trimEndUnderscores, trimEndUnderscores, List.reverse_append]
  rfl

theorem trimEnd_of_last_not_underscore :
    ∀ (A x : List Char), x ≠ [] → '_' ∉ x →
      trimEndUnderscores (A ++ x) = A ++ x := by
  intro A x hx hnu
  rw [trimEndUnderscores, List.reverse_append]
  cases hrev : x.reverse with
  | nil => exact absurd (List.reverse_eq_nil_iff.mp hrev) hx
  | cons c r =>
    have hc : c ∈ x := by
      rw [← List.mem_reverse, hrev]
      simp
    have hcne : (c == '_') = false := by
      cases h : (c == '_') with
      | true => exact absurd (by rw [eq_of_beq h] at hc; exact hc) hnu
      | false => rfl
    rw [List.cons_append, List.dropWhile_cons_of_neg (by rw [hcne]; decide)]
    rw [← List.cons_append, ← hrev, ← List.reverse_append, List.reverse_reverse]

theorem trimEnd_joinSep_all_clean :
    ∀ (ts : List (List Char)),
      (∀ u ∈ ts, u ≠ []) → (∀ u ∈ ts, '_' ∉ u) →
      trimEndUnderscores (joinSep ts) = joinSep ts := by
  intro ts hne hnu
  rcases List.eq_nil_or_concat ts with rfl | ⟨ts2, y, rfl⟩
  · rfl
  · rw [List.concat_eq_append] at *
    rw [joinSep_append_singleton]
    cases hts2 : ts2 with
    | nil =>
      simp only [List.isEmpty_nil, if_true]
      exact trimEnd_of_last_not_underscore [] y (hne y (by simp)) (hnu y (by simp))
    | cons a l =>
      simp only [List.isEmpty_cons, Bool.false_eq_true, if_false]
      rw [show joinSep (a :: l) ++ '_' :: y = (joinSep (a :: l) ++ ['_']) ++ y from by simp]
      refine trimEnd_of_last_not_underscore (joinSep (a :: l) ++ ['_']) y ?_ ?_
      · exact hne y (by simp)
      · exact hnu y (by simp)

theorem trimEnd_joinSep_filter :
    ∀ (ts : List (List Char)) (x : List Char),
      (∀ u ∈ ts, u ≠ []) → (∀ u ∈ ts ++ [x], '_' ∉ u) →
      trimEndUnderscores (joinSep (ts ++ [x])) =
        joinSep ((ts ++ [x]).filter (fun t => !t.isEmpty)) := by
  intro ts x hne hnu
  by_cases hx : x = []
  · subst hx
    have hfil : (ts ++ [([] : List Char)]).filter (fun t => !t.isEmpty) = ts := by
      rw [List.filter_append]
      rw [List.filter_eq_self.mpr (by
        intro u hu
        have := hne u hu
        cases u with
        | nil => exact absurd rfl this
        | cons a l => rfl)]
      simp
    rw [hfil]
    rw [joinSep_append_singleton]
    cases hts : ts with
    | nil => rfl
    | cons a l =>
      simp only [List.isEmpty_cons, Bool.false_eq_true, if_false]
      rw [show joinSep (a :: l) ++ '_' :: ([] : List Char) = joinSep (a :: l) ++ ['_'] from rfl]
      rw [trimEnd_append_underscore]
      refine trimEnd_joinSep_all_clean (a :: l) ?_ ?_
      · intro u hu; exact hne u (hts ▸ hu)
      · intro u hu; exact hnu u (by rw [hts]; exact List.mem_append.mpr (Or.inl hu))
  · have hfil : (ts ++ [x]).filter (fun t => !t.isEmpty) = ts ++ [x] := by
      apply List.filter_eq_self.mpr
      intro u hu
      rcases List.mem_append.mp hu with hu2 | hu2
      · have := hne u hu2
        cases u with
        | nil => exact absurd rfl this
        | cons a l => rfl
      · rcases List.mem_singleton.mp hu2 with rfl
        cases hxx : u with
        | nil => exact absurd hxx hx
        | cons a l => rfl
    rw [hfil]
    refine trimEnd_joinSep_all_clean (ts ++ [x]) ?_ hnu
    intro u hu
    rcases List.mem_append.mp hu with hu2 | hu2
    · exact hne u hu2
    · rcases List.mem_singleton.mp hu2 with rfl
      exact hx

theorem head?_dropWhile_underscore :
    ∀ (l : List Char) (c : Char),
      (l.dropWhile (· == '_')).head? = some c → c ≠ '_' := by
  intro l
  induction l with
  | nil => intro c h; simp [List.dropWhile] at h
  | cons a r ih =>
    intro c h
    rw [List.dropWhile_cons] at h
    by_cases ha : (a == '_') = true
    · rw [if_pos ha] at h
      exact ih c h
    · rw [if_neg ha] at h
      simp only [List.head?_cons, Option.some.injEq] at h
      subst h
      intro he
      exact ha (by rw [he]; rfl)

/-- C4 amended: the Rust slug function equals the tokenized specification
`slug_spec` (strip at most one of the nine exact keyword casings
lowercase/Capitalized/UPPERCASE followed by a space; lower-case alphanumeric
characters, starting a new token before an uppercase character that follows an
alphanumeric one and at whitespace/hyphen runs; drop other characters without
a separator; join non-empty tokens with single underscores); it never produces
a trailing separator, and it strips at most one leading keyword. -/
theorem c4_amended :
    (∀ s : String, to_snake_case s = slug_spec s) ∧
      (∀ (s : String) (c : Char), (to_snake_case s).data.getLast? = some c → c ≠ '_') ∧
      to_snake_case "when when x" = "when_x" := by
  refine ⟨?_, ?_, by decide⟩
  · intro s
    rw [to_snake_case, slug_spec]
    congr 1
    conv_lhs => rw [show ([] : List Char) = joinSep ([] ++ [([] : List Char)]) from rfl]
    rw [snakeLoop_joinSep (stripBdd (trimAsciiWs s.data)) false [] [] (by intro h; cases h)]
    rw [List.nil_append]
    rcases List.eq_nil_or_concat (snakeTokens (stripBdd (trimAsciiWs s.data)) false [])
      with hnil | ⟨ts, x, hconcat⟩
    · exact absurd hnil (snakeTokens_ne_nil _ _ _)
    · rw [List.concat_eq_append] at hconcat
      rw [hconcat]
      refine trimEnd_joinSep_filter ts x ?_ ?_
      · intro u hu
        have hd := snakeTokens_dropLast_ne_nil (stripBdd (trimAsciiWs s.data)) false []
          (by intro h; cases h) u
        rw [hconcat, List.dropLast_concat] at hd
        exact hd hu
      · intro u hu
        have hs2 := snakeTokens_no_underscore (stripBdd (trimAsciiWs s.data)) false []
          (by simp) u
        rw [hconcat] at hs2
        exact hs2 hu
  · intro s c h
    rw [to_snake_case] at h
    simp only [trimEndUnderscores] at h
    rw [List.getLast?_reverse] at h
    exact head?_dropWhile_underscore _ c h

/-- C4 counterexample: the claim fails on three clauses.  The mixed casing
`wHEN ` is not stripped (so not "any casing"); `FooBar` is split at the inner
uppercase letter rather than lower-cased as one run; `a.b` merges the two
alphanumeric runs without a separator instead of joining them with `_`.  The
Noir variant additionally strips keywords repeatedly, not at most once. -/
theorem c4_counterexample :
    to_snake_case "wHEN x" = "w_h_e_n_x" ∧ ("w_h_e_n_x" : String) ≠ "x" ∧
      to_snake_case "FooBar" = "foo_bar" ∧ ("foo_bar" : String) ≠ "foobar" ∧
      to_snake_case "a.b" = "ab" ∧ ("ab" : String) ≠ "a_b" ∧
      noir_to_snake_case "when when x" = "x" ∧ ("x" : String) ≠ "when_x" := by
  refine ⟨by decide, by decide, by decide, by decide, by decide, by decide, by decide, by decide⟩

/-- Witness for the hypothesis inside `c4_amended`, at a concrete input. -/
theorem c4_witness :
    to_snake_case "It works" = slug_spec "It works" ∧ ('s' : Char) ≠ '_' :=
  ⟨c4_amended.1 "It works", c4_amended.2.1 "It works" 's' (by decide)⟩

/-- Witness applying `c9_amended` at a concrete input. -/
theorem c9_witness :
    run_check_exit_code (fun _ => none) (fun _ => Except.error "e")
        (fun _ => Except.error "e") [] {} = 0 ↔
      ∀ p ∈ ([] : List String), ∀ vs,
        check (fun _ => none) (fun _ => Except.error "e") (fun _ => Except.error "e") p {} =
          Except.ok vs → vs = [] :=
  c9_amended (fun _ => none) (fun _ => Except.error "e") (fun _ => Except.error "e") [] {}

end Bulloak
